import Mathlib

/-!
Verification of the render-scene subsystem (`src/graphics/render_scene.cpp`).

The C++ code is shallowly embedded: `float` arithmetic is modelled by exact
rational arithmetic (`ℚ`), square roots are modelled by `Real.sqrt` in theorem
statements, and comparisons of square-root expressions inside executable code
paths are decided by exact rational tests on `a + b * √2` normal forms (the
only radicals that occur are `sqrt` of rational sums of squares compared with
`c * sqrt (2 * s * s) + s/4`).  Heap-allocated registries (`Array<T>` /
`Array<T*>`) are modelled as Lean lists, entities as their integer indices,
and the external serializer's ordered value stream as a list of tokens.
-/

namespace Lumix

/-- `Vec3`, with exact rational components in place of `float`. -/
structure Vec3q where
  x : ℚ
  y : ℚ
  z : ℚ
deriving DecidableEq, Repr

def Vec3q.sub (a b : Vec3q) : Vec3q := ⟨a.x - b.x, a.y - b.y, a.z - b.z⟩

def Vec3q.add (a b : Vec3q) : Vec3q := ⟨a.x + b.x, a.y + b.y, a.z + b.z⟩

def Vec3q.smul (t : ℚ) (a : Vec3q) : Vec3q := ⟨t * a.x, t * a.y, t * a.z⟩

/-- `dotProduct` from the math library. -/
def dotProduct (a b : Vec3q) : ℚ := a.x * b.x + a.y * b.y + a.z * b.z

/-- A quad-tree node (`struct TerrainQuad`).  `createChildren` either creates
all four children or none, so the all-or-nothing child pointers of the source
are modelled by a leaf/node dichotomy; child order is the source's
`TOP_LEFT, TOP_RIGHT, BOTTOM_LEFT, BOTTOM_RIGHT`. -/
inductive TerrainQuad where
  | leaf (m_min : Vec3q) (m_size : ℚ) (m_lod : ℕ)
  | node (m_min : Vec3q) (m_size : ℚ) (m_lod : ℕ) (tl tr bl br : TerrainQuad)
deriving DecidableEq, Repr

def TerrainQuad.m_min : TerrainQuad → Vec3q
  | .leaf m _ _ => m
  | .node m _ _ _ _ _ _ => m

def TerrainQuad.m_size : TerrainQuad → ℚ
  | .leaf _ s _ => s
  | .node _ s _ _ _ _ _ => s

def TerrainQuad.m_lod : TerrainQuad → ℕ
  | .leaf _ _ l => l
  | .node _ _ l _ _ _ _ => l

def TerrainQuad.hasChildren : TerrainQuad → Bool
  | .leaf _ _ _ => false
  | .node _ _ _ _ _ _ _ => true

/-- The list of children (empty for a leaf, the four quadrants for a node). -/
def TerrainQuad.childList : TerrainQuad → List TerrainQuad
  | .leaf _ _ _ => []
  | .node _ _ _ tl tr bl br => [tl, tr, bl, br]

/-- `TerrainQuad::createChildren`, fused with node construction: builds the
node at `(m_min, m_size, m_lod)` and recursively subdivides while
`m_lod < 8 && m_size > 16`. -/
def createChildren (m_min : Vec3q) (m_size : ℚ) (m_lod : ℕ) : TerrainQuad :=
  if h : m_lod < 8 ∧ 16 < m_size then
    .node m_min m_size m_lod
      (createChildren m_min (m_size / 2) (m_lod + 1))
      (createChildren ⟨m_min.x + m_size / 2, 0, m_min.z⟩ (m_size / 2) (m_lod + 1))
      (createChildren ⟨m_min.x, 0, m_min.z + m_size / 2⟩ (m_size / 2) (m_lod + 1))
      (createChildren ⟨m_min.x + m_size / 2, 0, m_min.z + m_size / 2⟩ (m_size / 2) (m_lod + 1))
  else
    .leaf m_min m_size m_lod
termination_by 8 - m_lod
decreasing_by all_goals omega

/-- `Terrain::generateQuadTree`: root at LOD 1, min corner `(0,0,0)`. -/
def generateQuadTree (size : ℚ) : TerrainQuad :=
  createChildren ⟨0, 0, 0⟩ size 1

/-- All nodes of a quad tree (the node itself and, recursively, its children). -/
def subquads : TerrainQuad → List TerrainQuad
  | .leaf m s l => [.leaf m s l]
  | .node m s l tl tr bl br =>
      .node m s l tl tr bl br :: (subquads tl ++ subquads tr ++ subquads bl ++ subquads br)

/-- `TerrainQuad::getDistance`, squared: the sum of the squared per-axis gaps
between the camera's `(x,z)` and the node's footprint.  The source returns
`sqrt` of this value; the square root is applied in theorem statements. -/
def getDistanceSq (m_min : Vec3q) (m_size : ℚ) (camera_pos : Vec3q) : ℚ :=
  let _max : Vec3q := ⟨m_min.x + m_size, m_min.y, m_min.z + m_size⟩
  (if camera_pos.x < m_min.x then (m_min.x - camera_pos.x) * (m_min.x - camera_pos.x) else 0) +
  (if camera_pos.x > _max.x then (_max.x - camera_pos.x) * (_max.x - camera_pos.x) else 0) +
  (if camera_pos.z < m_min.z then (m_min.z - camera_pos.z) * (m_min.z - camera_pos.z) else 0) +
  (if camera_pos.z > _max.z then (_max.z - camera_pos.z) * (_max.z - camera_pos.z) else 0)

/-- The piecewise factor of `TerrainQuad::getRadiusOuter`:
`getRadiusOuter size = getRadiusOuterCoeff size * sqrt (2*size*size) + size * 0.25`. -/
def getRadiusOuterCoeff (size : ℚ) : ℚ := if 17 < size then 2 else 1

/-- Decides `0 < a + b * √2` by exact rational arithmetic. -/
def sqrt2Pos (a b : ℚ) : Bool :=
  if 0 ≤ b then decide (0 < a) || decide (a * a < 2 * (b * b))
  else decide (0 < a) && decide (2 * (b * b) < a * a)

/-- The pruning test of `TerrainQuad::render`: decides
`getDistance camera_pos > getRadiusOuter m_size`, i.e.
`sqrt dsq > coeff * sqrt (2*s*s) + s/4`, via `a + b*√2` normal forms. -/
def tooFar (m_min : Vec3q) (m_size : ℚ) (camera_pos : Vec3q) : Bool :=
  let dsq := getDistanceSq m_min m_size camera_pos
  let a := m_size * (1 / 4)
  let b := getRadiusOuterCoeff m_size * |m_size|
  sqrt2Pos (-a) (-b) || sqrt2Pos (dsq - (a * a + 2 * (b * b))) (-(2 * (a * b)))

/-- One `geometry.draw` call issued by `TerrainQuad::render`: the draw of the
index range `[count/4 * i, count/4)` with uniforms `quad_min = m_min`,
`quad_size = m_size`.  Modelled from the spec: the sub-grid occupying that
quarter of the index buffer covers quadrant `quad_index` of the node's square
(`TOP_LEFT, TOP_RIGHT, BOTTOM_LEFT, BOTTOM_RIGHT` for indices 0..3). -/
structure Draw where
  quad_index : ℕ
  quad_min : Vec3q
  quad_size : ℚ
deriving DecidableEq, Repr

/-- The `(x,z)` min corner of quadrant `i` of the square with min corner `m`
and side `s` (child order of `TerrainQuad::ChildType`). -/
def quadCorner (m : Vec3q) (s : ℚ) (i : ℕ) : ℚ × ℚ :=
  (m.x + (if i = 1 ∨ i = 3 then s / 2 else 0),
   m.z + (if i = 2 ∨ i = 3 then s / 2 else 0))

/-- Membership of a point in the half-open square `[mx, mx+s) × [mz, mz+s)`.
Half-open footprints make "covered by exactly one quadrant" exact on shared
edges. -/
def inSquareB (mx mz s : ℚ) (p : ℚ × ℚ) : Bool :=
  decide (mx ≤ p.1 ∧ p.1 < mx + s ∧ mz ≤ p.2 ∧ p.2 < mz + s)

/-- The footprint covered by one drawn quadrant segment. -/
def coversB (d : Draw) (p : ℚ × ℚ) : Bool :=
  inSquareB (quadCorner d.quad_min d.quad_size d.quad_index).1
    (quadCorner d.quad_min d.quad_size d.quad_index).2 (d.quad_size / 2) p

/-- The draws contributed for child slot `i` in `TerrainQuad::render`'s loop:
the child's own draws, followed by the parent's quarter-tile draw when the
child is absent or declines to render. -/
def childDraws (m : Vec3q) (s : ℚ) (i : ℕ) (res : Bool × List Draw) : List Draw :=
  if res.1 then res.2 else res.2 ++ [⟨i, m, s⟩]

/-- `TerrainQuad::render`: returns whether this node rendered, together with
the draw calls issued (in source order).  A node declines iff
`getDistance(camera) > getRadiusOuter(size)` and its LOD is above 1; otherwise
for each child slot it renders the child, falling back to its own
quarter-tile when the child is absent or declined. -/
def render (camera_pos : Vec3q) : TerrainQuad → Bool × List Draw
  | .leaf m s lod =>
      if tooFar m s camera_pos && decide (1 < lod) then (false, [])
      else (true, [⟨0, m, s⟩] ++ [⟨1, m, s⟩] ++ [⟨2, m, s⟩] ++ [⟨3, m, s⟩])
  | .node m s lod tl tr bl br =>
      if tooFar m s camera_pos && decide (1 < lod) then (false, [])
      else
        (true,
          childDraws m s 0 (render camera_pos tl) ++
          childDraws m s 1 (render camera_pos tr) ++
          childDraws m s 2 (render camera_pos bl) ++
          childDraws m s 3 (render camera_pos br))

/-- Geometric well-formedness of a quad tree: each child occupies the
expected quadrant of its parent at half size (as `createChildren` builds). -/
def wfQuad : TerrainQuad → Prop
  | .leaf _ _ _ => True
  | .node m s _ tl tr bl br =>
      tl.m_min = m ∧ tl.m_size = s / 2 ∧
      tr.m_min = ⟨m.x + s / 2, 0, m.z⟩ ∧ tr.m_size = s / 2 ∧
      bl.m_min = ⟨m.x, 0, m.z + s / 2⟩ ∧ bl.m_size = s / 2 ∧
      br.m_min = ⟨m.x + s / 2, 0, m.z + s / 2⟩ ∧ br.m_size = s / 2 ∧
      wfQuad tl ∧ wfQuad tr ∧ wfQuad bl ∧ wfQuad br

/-- Component type tags.  The source uses `crc32` of the literal strings
`"renderable"`, `"light"`, `"camera"`, `"terrain"`; the hash values are
modelled by this enumeration (crc32 is injective on these four strings). -/
inductive CompType where
  | renderable
  | light
  | camera
  | terrain
deriving DecidableEq, Repr

/-- `Component`: an (entity, type tag, registry index) triple.  The entity is
modelled by its integer index into the external transform graph.
`Component::INVALID` is modelled as `none` at use sites. -/
structure Component where
  entity : ℤ
  type : CompType
  index : ℕ
deriving DecidableEq, Repr

/-- The externally owned `Model` resource: its path and bounding radius are
the only data this subsystem reads. -/
structure Model where
  m_path : String
  m_bounding_radius : ℚ
deriving DecidableEq, Repr

/-- `ModelInstance`: a shared model binding plus the instance world matrix.
The matrix is the raw list of the 16 float fields `m11..m44` in declared
order (as serialized via `(&mtx.m11)[j]`). -/
structure ModelInstance where
  m_model : Option Model
  m_matrix : List ℚ
deriving DecidableEq, Repr

/-- `Matrix::getTranslation`.  Modelled from the spec: the translation of a
row-major 4×4 matrix lives in declared-order components 12, 13, 14
(`m41, m42, m43`). -/
def getTranslation (m : List ℚ) : Vec3q :=
  ⟨m.getD 12 0, m.getD 13 0, m.getD 14 0⟩

/-- `struct Renderable`.  `m_layer_mask : Option ℤ` models the `int64_t`
field, with `none` standing for the indeterminate value of a
default-constructed `Renderable` (its constructor initializes nothing). -/
structure Renderable where
  m_model : ModelInstance
  m_entity : ℤ
  m_layer_mask : Option ℤ
  m_scale : ℚ
deriving DecidableEq, Repr

/-- `struct Light`: `m_type` is the raw `int32_t` of `Light::Type`
(`DIRECTIONAL = 0`). -/
structure Light where
  m_type : ℤ
  m_entity : ℤ
deriving DecidableEq, Repr

/-- `struct Camera`.  The fixed 31-char slot buffer is modelled as a string
(it holds at most `MAX_SLOT_LENGTH = 30` characters in the source). -/
structure Camera where
  m_entity : ℤ
  m_fov : ℚ
  m_aspect : ℚ
  m_near : ℚ
  m_far : ℚ
  m_width : ℚ
  m_height : ℚ
  m_is_active : Bool
  m_slot : String
deriving DecidableEq, Repr

/-- `struct Terrain`, restricted to the fields this subsystem serializes and
mutates directly.  `m_material` is the path of the loaded material resource
(`none` when no material is bound); width/height/matrix/mesh come from
external collaborators and are not modelled. -/
structure Terrain where
  m_entity : ℤ
  m_layer_mask : ℤ
  m_material : Option String
  m_xz_scale : ℚ
  m_y_scale : ℚ
deriving DecidableEq, Repr

/-- `struct DebugLine`. -/
structure DebugLine where
  m_from : Vec3q
  m_to : Vec3q
  m_color : Vec3q
  m_life : ℚ
deriving DecidableEq, Repr

/-- The registries and debug buffer of `RenderSceneImpl`. -/
structure Scene where
  m_renderables : List Renderable
  m_lights : List Light
  m_cameras : List Camera
  m_terrains : List Terrain
  m_debug_lines : List DebugLine
deriving DecidableEq, Repr

def emptyScene : Scene := ⟨[], [], [], [], []⟩

/-- `RenderSceneImpl::addDebugLine`: appends a fresh line (`pushEmpty`). -/
def addDebugLine (s : Scene) (f t color : Vec3q) (life : ℚ) : Scene :=
  { s with m_debug_lines := s.m_debug_lines ++ [⟨f, t, color, life⟩] }

/-- `Array::eraseFast`: moves the last element into slot `i` and drops the
last slot (order-destroying removal). -/
def eraseFast (l : List DebugLine) (i : ℕ) : List DebugLine :=
  match l.getLast? with
  | none => l
  | some a => (l.set i a).dropLast

/-- The loop body of `RenderSceneImpl::update`, iterating `i` from
`size - 1` down to `0`.  Note the faithful bug: the decremented lifetime
`life = m_debug_lines[i].m_life - dt` is a local copy and is never written
back; only the removal test uses it. -/
def updateLoop (dt : ℚ) : List DebugLine → ℕ → List DebugLine
  | lines, 0 => lines
  | lines, n + 1 =>
      match lines.get? n with
      | none => updateLoop dt lines n
      | some ln =>
          if ln.m_life - dt < 0 then updateLoop dt (eraseFast lines n) n
          else updateLoop dt lines n

/-- `RenderSceneImpl::update`. -/
def update (s : Scene) (dt : ℚ) : Scene :=
  { s with m_debug_lines := updateLoop dt s.m_debug_lines s.m_debug_lines.length }

/-- `RenderSceneImpl::getLight`.  The source method mutates nothing; the
returned pair makes the unchanged scene state explicit.  `Component::INVALID`
is modelled as `none`. -/
def getLight (s : Scene) (index : ℕ) : Scene × Option Component :=
  (s,
    if h : index < s.m_lights.length then
      some ⟨(s.m_lights.get ⟨index, h⟩).m_entity, CompType.light, index⟩
    else none)

/-- `Math::getRaySphereIntersection`.  Modelled from the spec (the routine
lives in `core/math_utils`, outside the provided sources): whether the ray
`origin + t * dir`, `t ≥ 0`, meets the closed sphere of the given center and
radius, decided by evaluating the squared distance at the clamped closest
approach parameter. -/
def getRaySphereIntersection (center : Vec3q) (radius : ℚ) (origin dir : Vec3q) : Bool :=
  let L := center.sub origin
  let a := dotProduct dir dir
  let t := if a = 0 then 0 else max (dotProduct L dir / a) 0
  let v := (origin.add (Vec3q.smul t dir)).sub center
  decide (dotProduct v v ≤ radius * radius)

/-- The broad-phase test of `RenderSceneImpl::castRay` for a renderable with
a bound model: origin inside the bounding sphere with the UNSCALED radius
(`radius * radius`), or ray-sphere intersection with the scaled radius
(`radius * scale`), exactly as in the source. -/
def passesBroadPhase (m : Model) (r : Renderable) (origin dir : Vec3q) : Bool :=
  let pos := getTranslation r.m_model.m_matrix
  decide (dotProduct (pos.sub origin) (pos.sub origin) <
      m.m_bounding_radius * m.m_bounding_radius) ||
    getRaySphereIntersection pos (m.m_bounding_radius * r.m_scale) origin dir

/-- The broad-phase test as claim C6 words it (for refutation): the SAME
scaled radius `bounding radius × instance scale` in both the inside check and
the intersection check. -/
def claimBroadPhaseScaled (m : Model) (r : Renderable) (origin dir : Vec3q) : Bool :=
  let pos := getTranslation r.m_model.m_matrix
  decide (dotProduct (pos.sub origin) (pos.sub origin) <
      (m.m_bounding_radius * r.m_scale) * (m.m_bounding_radius * r.m_scale)) ||
    getRaySphereIntersection pos (m.m_bounding_radius * r.m_scale) origin dir

/-- `RayCastModelHit`, restricted to the fields `castRay` writes.  The
`m_renderable` component is `none` until a hit is recorded. -/
structure RayCastModelHit where
  m_is_hit : Bool
  m_t : ℚ
  m_renderable : Option Component
deriving DecidableEq, Repr

/-- The type of the external narrow-phase `Model::castRay` collaborator:
given the model, the instance matrix, the instance scale, the ray origin and
direction, it reports the hit parameter `t` (or `none` on a miss). -/
def NarrowPhase : Type := Model → List ℚ → ℚ → Vec3q → Vec3q → Option ℚ

/-- The loop of `RenderSceneImpl::castRay` over `m_renderables[i]`, carrying
the current best hit. -/
def castRayGo (narrow : NarrowPhase) (origin dir : Vec3q) :
    List Renderable → ℕ → RayCastModelHit → RayCastModelHit
  | [], _, hit => hit
  | r :: rest, i, hit =>
      match r.m_model.m_model with
      | none => castRayGo narrow origin dir rest (i + 1) hit
      | some m =>
          if passesBroadPhase m r origin dir then
            match narrow m r.m_model.m_matrix r.m_scale origin dir with
            | none => castRayGo narrow origin dir rest (i + 1) hit
            | some t =>
                if !hit.m_is_hit || t < hit.m_t then
                  castRayGo narrow origin dir rest (i + 1)
                    ⟨true, t, some ⟨r.m_entity, CompType.renderable, i⟩⟩
                else castRayGo narrow origin dir rest (i + 1) hit
          else castRayGo narrow origin dir rest (i + 1) hit

/-- `RenderSceneImpl::castRay`. -/
def castRay (narrow : NarrowPhase) (s : Scene) (origin dir : Vec3q) : RayCastModelHit :=
  castRayGo narrow origin dir s.m_renderables 0 ⟨false, 0, none⟩

/-- A narrow-phase hit candidate: renderable index, its entity, hit `t`. -/
structure RayCand where
  idx : ℕ
  entity : ℤ
  t : ℚ
deriving DecidableEq, Repr

/-- The candidates considered by `castRay`, in iteration order: renderables
with a bound model that pass the broad phase and whose narrow phase hits. -/
def rayCandidatesGo (narrow : NarrowPhase) (origin dir : Vec3q) :
    List Renderable → ℕ → List RayCand
  | [], _ => []
  | r :: rest, i =>
      (match r.m_model.m_model with
       | none => []
       | some m =>
           if passesBroadPhase m r origin dir then
             match narrow m r.m_model.m_matrix r.m_scale origin dir with
             | none => []
             | some t => [⟨i, r.m_entity, t⟩]
           else []) ++ rayCandidatesGo narrow origin dir rest (i + 1)

def rayCandidates (narrow : NarrowPhase) (s : Scene) (origin dir : Vec3q) : List RayCand :=
  rayCandidatesGo narrow origin dir s.m_renderables 0

/-- The best-hit accumulation of `castRay`, restricted to the candidate
list: a later candidate replaces the current best exactly when its `t` is
strictly smaller (or no hit is recorded yet). -/
def foldCand : List RayCand → RayCastModelHit → RayCastModelHit
  | [], hit => hit
  | c :: rest, hit =>
      if !hit.m_is_hit || c.t < hit.m_t then
        foldCand rest ⟨true, c.t, some ⟨c.entity, CompType.renderable, c.idx⟩⟩
      else foldCand rest hit

/-- The first candidate attaining the minimum hit parameter, starting from a
current best `c0` (earlier candidates win ties). -/
def firstMinCand (c0 : RayCand) : List RayCand → RayCand
  | [] => c0
  | c :: rest => if c.t < c0.t then firstMinCand c rest else firstMinCand c0 rest

/-- One value in the external serializer's ordered stream.  Labels and
array begin/end markers are formatting handled by the collaborator and carry
no data; only the values are modelled. -/
inductive Tok where
  | iTok (z : ℤ)
  | qTok (x : ℚ)
  | sTok (s : String)
  | bTok (b : Bool)
deriving DecidableEq, Repr

/-- `RenderSceneImpl::serializeCameras`: count, then per camera
far, near, fov, is_active, width, height, entity index, slot. -/
def serializeCamera (c : Camera) : List Tok :=
  [.qTok c.m_far, .qTok c.m_near, .qTok c.m_fov, .bTok c.m_is_active,
   .qTok c.m_width, .qTok c.m_height, .iTok c.m_entity, .sTok c.m_slot]

def serializeCameras (cs : List Camera) : List Tok :=
  .iTok cs.length :: (cs.map serializeCamera).flatten

/-- The model path a renderable serializes: the bound model's path, or `""`
when no model is bound. -/
def renderablePathTok (r : Renderable) : String :=
  match r.m_model.m_model with
  | some m => m.m_path
  | none => ""

/-- `RenderSceneImpl::serializeRenderables`: count, then per renderable
entity index, model path, scale, the 16 matrix components
(`(&mtx.m11)[j]` for `j < 16`); `m_layer_mask` is NOT serialized. -/
def serializeRenderable (r : Renderable) : List Tok :=
  [.iTok r.m_entity, .sTok (renderablePathTok r), .qTok r.m_scale] ++
    (List.range 16).map (fun j => .qTok (r.m_model.m_matrix.getD j 0))

def serializeRenderables (rs : List Renderable) : List Tok :=
  .iTok rs.length :: (rs.map serializeRenderable).flatten

/-- `RenderSceneImpl::serializeLights`: count, then per light entity index
and the raw `int32_t` of the type. -/
def serializeLight (l : Light) : List Tok :=
  [.iTok l.m_entity, .iTok l.m_type]

def serializeLights (ls : List Light) : List Tok :=
  .iTok ls.length :: (ls.map serializeLight).flatten

/-- `RenderSceneImpl::serializeTerrains`: count, then per terrain entity
index, layer mask, material path, xz scale, y scale.  The source dereferences
`m_material` without a null check (undefined behavior when no material is
bound); a missing material is rendered as `""` here and excluded by
hypothesis in the round-trip theorems. -/
def serializeTerrain (t : Terrain) : List Tok :=
  [.iTok t.m_entity, .iTok t.m_layer_mask, .sTok (t.m_material.getD ""),
   .qTok t.m_xz_scale, .qTok t.m_y_scale]

def serializeTerrains (ts : List Terrain) : List Tok :=
  .iTok ts.length :: (ts.map serializeTerrain).flatten

/-- `RenderSceneImpl::serialize`: cameras, renderables, lights, terrains. -/
def serialize (s : Scene) : List Tok :=
  serializeCameras s.m_cameras ++ serializeRenderables s.m_renderables ++
    serializeLights s.m_lights ++ serializeTerrains s.m_terrains

def readI : List Tok → Option (ℤ × List Tok)
  | .iTok z :: rest => some (z, rest)
  | _ => none

def readQ : List Tok → Option (ℚ × List Tok)
  | .qTok x :: rest => some (x, rest)
  | _ => none

def readS : List Tok → Option (String × List Tok)
  | .sTok s :: rest => some (s, rest)
  | _ => none

def readB : List Tok → Option (Bool × List Tok)
  | .bTok b :: rest => some (b, rest)
  | _ => none

/-- Reads `n` rationals (the 16 matrix components). -/
def readQs : ℕ → List Tok → Option (List ℚ × List Tok)
  | 0, toks => some ([], toks)
  | n + 1, toks => do
      let (x, t1) ← readQ toks
      let (xs, t2) ← readQs n t1
      some (x :: xs, t2)

/-- One camera record of `RenderSceneImpl::deserializeCameras`: every field
is read back (or, for `m_aspect`, recomputed as `width / height`), so the
resize-then-overwrite of the source is equivalent to rebuilding the entry. -/
def readCamera (toks : List Tok) : Option (Camera × List Tok) := do
  let (far, t1) ← readQ toks
  let (near, t2) ← readQ t1
  let (fov, t3) ← readQ t2
  let (act, t4) ← readB t3
  let (w, t5) ← readQ t4
  let (h, t6) ← readQ t5
  let (ent, t7) ← readI t6
  let (slot, t8) ← readS t7
  some (⟨ent, fov, w / h, near, far, w, h, act, slot⟩, t8)

def readCameras : ℕ → List Tok → Option (List Camera × List Tok)
  | 0, toks => some ([], toks)
  | n + 1, toks => do
      let (c, t1) ← readCamera toks
      let (cs, t2) ← readCameras n t1
      some (c :: cs, t2)

def deserializeCameras (toks : List Tok) : Option (List Camera × List Tok) := do
  let (n, t1) ← readI toks
  readCameras n.toNat t1

/-- A freshly `LUMIX_NEW`-constructed `Renderable`: nothing is initialized;
all fields except `m_layer_mask` are overwritten by the deserializer, so only
the indeterminate layer mask (`none`) matters. -/
def freshRenderable : Renderable := ⟨⟨none, []⟩, 0, none, 0⟩

/-- One renderable record of `RenderSceneImpl::deserializeRenderables`,
read into an existing (reused or fresh) entry `base`: entity index, model
path (handed to the resource manager `loadModel`), scale, 16 matrix
components.  `m_layer_mask` is left as it was in `base`. -/
def readRenderableInto (loadModel : String → Option Model) (base : Renderable)
    (toks : List Tok) : Option (Renderable × List Tok) := do
  let (ent, t1) ← readI toks
  let (path, t2) ← readS t1
  let (sc, t3) ← readQ t2
  let (mat, t4) ← readQs 16 t3
  some ({ m_model := ⟨loadModel path, mat⟩, m_entity := ent,
          m_layer_mask := base.m_layer_mask, m_scale := sc }, t4)

def readRenderablesInto (loadModel : String → Option Model) :
    List Renderable → List Tok → Option (List Renderable × List Tok)
  | [], toks => some ([], toks)
  | base :: bases, toks => do
      let (r, t1) ← readRenderableInto loadModel base toks
      let (rs, t2) ← readRenderablesInto loadModel bases t1
      some (r :: rs, t2)

/-- `RenderSceneImpl::deserializeRenderables`: reads the count, destroys the
excess pre-existing entries (`resize` truncates), allocates fresh
uninitialized entries as needed, then overwrites each entry's serialized
fields in place. -/
def deserializeRenderables (loadModel : String → Option Model)
    (pre : List Renderable) (toks : List Tok) : Option (List Renderable × List Tok) := do
  let (n, t1) ← readI toks
  let kept := pre.take n.toNat
  let base := kept ++ List.replicate (n.toNat - kept.length) freshRenderable
  readRenderablesInto loadModel base t1

def readLight (toks : List Tok) : Option (Light × List Tok) := do
  let (ent, t1) ← readI toks
  let (ty, t2) ← readI t1
  some (⟨ty, ent⟩, t2)

def readLights : ℕ → List Tok → Option (List Light × List Tok)
  | 0, toks => some ([], toks)
  | n + 1, toks => do
      let (l, t1) ← readLight toks
      let (ls, t2) ← readLights n t1
      some (l :: ls, t2)

/-- `RenderSceneImpl::deserializeLights`: resize to the recorded count and
overwrite every field of every entry (equivalent to rebuilding the list). -/
def deserializeLights (toks : List Tok) : Option (List Light × List Tok) := do
  let (n, t1) ← readI toks
  readLights n.toNat t1

/-- The terrain produced by `createComponent(TERRAIN_HASH, e)`:
layer mask 1, no material, xz/y scales 1. -/
def createdTerrain (e : ℤ) : Terrain := ⟨e, 1, none, 1, 1⟩

/-- In-place field update of the terrain at index `j` (no-op out of range,
matching un-checked indexed access only ever used in range). -/
def modifyTerrainAt (l : List Terrain) (j : ℕ) (f : Terrain → Terrain) : List Terrain :=
  match l.get? j with
  | some t => l.set j (f t)
  | none => l

/-- The loop of `RenderSceneImpl::deserializeTerrains`, iteration `i`:
`createComponent` APPENDS a fresh terrain (index `cmp.index` = end of the
array — nothing pre-existing is destroyed), the layer mask and material are
written through `cmp.index`, but the xz and y scales are written through the
loop counter `i` (`m_terrains[i]`), exactly as in the source. -/
def deserializeTerrainsLoop :
    List Terrain → ℕ → ℕ → List Tok → Option (List Terrain × List Tok)
  | terrains, _, 0, toks => some (terrains, toks)
  | terrains, i, fuel + 1, toks => do
      let (ent, t1) ← readI toks
      let terrains1 := terrains ++ [createdTerrain ent]
      let ci := terrains1.length - 1
      let (lm, t2) ← readI t1
      let terrains2 := modifyTerrainAt terrains1 ci (fun t => { t with m_layer_mask := lm })
      let (path, t3) ← readS t2
      let terrains3 := modifyTerrainAt terrains2 ci (fun t => { t with m_material := some path })
      let (xz, t4) ← readQ t3
      let terrains4 := modifyTerrainAt terrains3 i (fun t => { t with m_xz_scale := xz })
      let (ys, t5) ← readQ t4
      let terrains5 := modifyTerrainAt terrains4 i (fun t => { t with m_y_scale := ys })
      deserializeTerrainsLoop terrains5 (i + 1) fuel t5

def deserializeTerrains (pre : List Terrain) (toks : List Tok) :
    Option (List Terrain × List Tok) := do
  let (n, t1) ← readI toks
  deserializeTerrainsLoop pre 0 n.toNat t1

/-- `RenderSceneImpl::deserialize`: cameras, renderables, lights, terrains,
each consuming its section of the stream, updating the scene's registries. -/
def deserialize (loadModel : String → Option Model) (toks : List Tok) (s : Scene) :
    Option Scene := do
  let (cs, t1) ← deserializeCameras toks
  let (rs, t2) ← deserializeRenderables loadModel s.m_renderables t1
  let (ls, t3) ← deserializeLights t2
  let (ts, _) ← deserializeTerrains s.m_terrains t3
  some { s with m_cameras := cs, m_renderables := rs, m_lights := ls, m_terrains := ts }

/-- A concrete resource manager for round-trip instances: the one model of
this scene lives at path `"mdl"`. -/
def roundtripLoad : String → Option Model :=
  fun p => if p = "mdl" then some ⟨"mdl", 1⟩ else none

/-- A concrete scene with one camera, one renderable (model bound, layer
mask 3), one light and one terrain with a material. -/
def roundtripScene : Scene :=
  ⟨[⟨⟨some ⟨"mdl", 1⟩, [0, 0, 0, 0, 0, 0, 0, 0, 0, 0, 0, 0, 0, 0, 0, 0]⟩, 7, some 3, 1⟩],
   [⟨0, 4⟩],
   [⟨5, 60, 2, 1, 100, 2, 1, true, "main"⟩],
   [⟨9, 2, some "t.mat", 1, 1⟩],
   []⟩

/-- A concrete pre-existing scene holding one terrain. -/
def preScene : Scene := ⟨[], [], [], [⟨3, 1, some "t.mat", 1, 1⟩], []⟩

/-! ### Quad-tree structure lemmas -/

theorem createChildren_m_min (m : Vec3q) (s : ℚ) (l : ℕ) :
    (createChildren m s l).m_min = m := by
  rw [createChildren.eq_def]
  split <;> rfl

theorem createChildren_m_size (m : Vec3q) (s : ℚ) (l : ℕ) :
    (createChildren m s l).m_size = s := by
  rw [createChildren.eq_def]
  split <;> rfl

theorem createChildren_m_lod (m : Vec3q) (s : ℚ) (l : ℕ) :
    (createChildren m s l).m_lod = l := by
  rw [createChildren.eq_def]
  split <;> rfl

/-- The four half-size quadrants of a (half-open) square partition it:
summed point-membership indicators equal the parent's indicator. -/
theorem quadrant_countP (mx mz s : ℚ) (p : ℚ × ℚ) :
    ((if inSquareB mx mz (s / 2) p = true then 1 else 0) +
     (if inSquareB (mx + s / 2) mz (s / 2) p = true then 1 else 0) +
     (if inSquareB mx (mz + s / 2) (s / 2) p = true then 1 else 0) +
     (if inSquareB (mx + s / 2) (mz + s / 2) (s / 2) p = true then 1 else 0) : ℕ) =
      if inSquareB mx mz s p = true then 1 else 0 := by
  rcases p with ⟨px, pz⟩
  simp only [inSquareB, decide_eq_true_eq]
  have ex : mx + s / 2 + s / 2 = mx + s := by ring
  have ez : mz + s / 2 + s / 2 = mz + s := by ring
  rw [ex, ez]
  rcases lt_or_le px (mx + s / 2) with hx | hx <;>
    rcases lt_or_le pz (mz + s / 2) with hz | hz
  · have hTR : ¬(mx + s / 2 ≤ px ∧ px < mx + s ∧ mz ≤ pz ∧ pz < mz + s / 2) :=
      fun h => absurd h.1 (not_le.mpr hx)
    have hBL : ¬(mx ≤ px ∧ px < mx + s / 2 ∧ mz + s / 2 ≤ pz ∧ pz < mz + s) :=
      fun h => absurd h.2.2.1 (not_le.mpr hz)
    have hBR : ¬(mx + s / 2 ≤ px ∧ px < mx + s ∧ mz + s / 2 ≤ pz ∧ pz < mz + s) :=
      fun h => absurd h.1 (not_le.mpr hx)
    have hiff : (mx ≤ px ∧ px < mx + s / 2 ∧ mz ≤ pz ∧ pz < mz + s / 2) ↔
        (mx ≤ px ∧ px < mx + s ∧ mz ≤ pz ∧ pz < mz + s) := by
      constructor
      · rintro ⟨a, b, c, d⟩; exact ⟨a, by linarith, c, by linarith⟩
      · rintro ⟨a, b, c, d⟩; exact ⟨a, hx, c, hz⟩
    rw [if_neg hTR, if_neg hBL, if_neg hBR, if_congr hiff rfl rfl]
    simp
  · have hTL : ¬(mx ≤ px ∧ px < mx + s / 2 ∧ mz ≤ pz ∧ pz < mz + s / 2) :=
      fun h => absurd h.2.2.2 (not_lt.mpr hz)
    have hTR : ¬(mx + s / 2 ≤ px ∧ px < mx + s ∧ mz ≤ pz ∧ pz < mz + s / 2) :=
      fun h => absurd h.1 (not_le.mpr hx)
    have hBR : ¬(mx + s / 2 ≤ px ∧ px < mx + s ∧ mz + s / 2 ≤ pz ∧ pz < mz + s) :=
      fun h => absurd h.1 (not_le.mpr hx)
    have hiff : (mx ≤ px ∧ px < mx + s / 2 ∧ mz + s / 2 ≤ pz ∧ pz < mz + s) ↔
        (mx ≤ px ∧ px < mx + s ∧ mz ≤ pz ∧ pz < mz + s) := by
      constructor
      · rintro ⟨a, b, c, d⟩; exact ⟨a, by linarith, by linarith, d⟩
      · rintro ⟨a, b, c, d⟩; exact ⟨a, hx, hz, d⟩
    rw [if_neg hTL, if_neg hTR, if_neg hBR, if_congr hiff rfl rfl]
    simp
  · have hTL : ¬(mx ≤ px ∧ px < mx + s / 2 ∧ mz ≤ pz ∧ pz < mz + s / 2) :=
      fun h => absurd h.2.1 (not_lt.mpr hx)
    have hBL : ¬(mx ≤ px ∧ px < mx + s / 2 ∧ mz + s / 2 ≤ pz ∧ pz < mz + s) :=
      fun h => absurd h.2.1 (not_lt.mpr hx)
    have hBR : ¬(mx + s / 2 ≤ px ∧ px < mx + s ∧ mz + s / 2 ≤ pz ∧ pz < mz + s) :=
      fun h => absurd h.2.2.1 (not_le.mpr hz)
    have hiff : (mx + s / 2 ≤ px ∧ px < mx + s ∧ mz ≤ pz ∧ pz < mz + s / 2) ↔
        (mx ≤ px ∧ px < mx + s ∧ mz ≤ pz ∧ pz < mz + s) := by
      constructor
      · rintro ⟨a, b, c, d⟩; exact ⟨by linarith, b, c, by linarith⟩
      · rintro ⟨a, b, c, d⟩; exact ⟨hx, b, c, hz⟩
    rw [if_neg hTL, if_neg hBL, if_neg hBR, if_congr hiff rfl rfl]
    simp
  · have hTL : ¬(mx ≤ px ∧ px < mx + s / 2 ∧ mz ≤ pz ∧ pz < mz + s / 2) :=
      fun h => absurd h.2.1 (not_lt.mpr hx)
    have hTR : ¬(mx + s / 2 ≤ px ∧ px < mx + s ∧ mz ≤ pz ∧ pz < mz + s / 2) :=
      fun h => absurd h.2.2.2 (not_lt.mpr hz)
    have hBL : ¬(mx ≤ px ∧ px < mx + s / 2 ∧ mz + s / 2 ≤ pz ∧ pz < mz + s) :=
      fun h => absurd h.2.1 (not_lt.mpr hx)
    have hiff : (mx + s / 2 ≤ px ∧ px < mx + s ∧ mz + s / 2 ≤ pz ∧ pz < mz + s) ↔
        (mx ≤ px ∧ px < mx + s ∧ mz ≤ pz ∧ pz < mz + s) := by
      constructor
      · rintro ⟨a, b, c, d⟩; exact ⟨by linarith, b, by linarith, d⟩
      · rintro ⟨a, b, c, d⟩; exact ⟨hx, b, hz, d⟩
    rw [if_neg hTL, if_neg hTR, if_neg hBL, if_congr hiff rfl rfl]
    simp

/-- Structural invariants of every node of a tree built by `createChildren`,
proved by induction on the remaining LOD budget. -/
theorem quad_inv_aux : ∀ (fuel l : ℕ) (m : Vec3q) (s : ℚ), l ≤ 8 → 8 - l ≤ fuel →
    ∀ q ∈ subquads (createChildren m s l),
      (q.hasChildren = true ↔ (q.m_lod < 8 ∧ 16 < q.m_size)) ∧
      (∀ c ∈ q.childList, c.m_size = q.m_size / 2 ∧ c.m_lod = q.m_lod + 1) ∧
      (∀ mm ss ll tl tr bl br, q = .node mm ss ll tl tr bl br →
        tl.m_min = mm ∧ tr.m_min = ⟨mm.x + ss / 2, 0, mm.z⟩ ∧
        bl.m_min = ⟨mm.x, 0, mm.z + ss / 2⟩ ∧
        br.m_min = ⟨mm.x + ss / 2, 0, mm.z + ss / 2⟩ ∧
        ∀ p : ℚ × ℚ,
          ((if inSquareB tl.m_min.x tl.m_min.z tl.m_size p = true then 1 else 0) +
           (if inSquareB tr.m_min.x tr.m_min.z tr.m_size p = true then 1 else 0) +
           (if inSquareB bl.m_min.x bl.m_min.z bl.m_size p = true then 1 else 0) +
           (if inSquareB br.m_min.x br.m_min.z br.m_size p = true then 1 else 0) : ℕ) =
            if inSquareB mm.x mm.z ss p = true then 1 else 0) ∧
      q.m_lod ≤ 8 ∧
      (q.hasChildren = false → q.m_size ≤ 16 ∨ q.m_lod = 8) := by
  intro fuel
  induction fuel with
  | zero =>
      intro l m s hl8 hfuel q hq
      have hl : l = 8 := by omega
      subst hl
      rw [createChildren.eq_def, dif_neg (fun h => absurd h.1 (by omega))] at hq
      simp only [subquads, List.mem_singleton] at hq
      subst hq
      refine ⟨by simp [TerrainQuad.hasChildren, TerrainQuad.m_lod], ?_, ?_, ?_, ?_⟩
      · intro c hc; simp [TerrainQuad.childList] at hc
      · intro mm ss ll tl tr bl br heq; cases heq
      · simp [TerrainQuad.m_lod]
      · intro _; right; simp [TerrainQuad.m_lod]
  | succ n ih =>
      intro l m s hl8 hfuel q hq
      rw [createChildren.eq_def] at hq
      by_cases hc : l < 8 ∧ 16 < s
      · rw [dif_pos hc] at hq
        simp only [subquads, List.mem_cons, List.mem_append] at hq
        rcases hq with rfl | hq4
        · refine ⟨?_, ?_, ?_, ?_, ?_⟩
          · simp only [TerrainQuad.hasChildren, TerrainQuad.m_lod, TerrainQuad.m_size]
            exact ⟨fun _ => hc, fun _ => trivial⟩
          · intro c hcm
            simp only [TerrainQuad.childList, List.mem_cons, List.mem_singleton,
              List.not_mem_nil, or_false] at hcm
            rcases hcm with rfl | rfl | rfl | rfl <;>
              exact ⟨createChildren_m_size _ _ _, createChildren_m_lod _ _ _⟩
          · intro mm ss ll tl tr bl br heq
            injection heq with h1 h2 h3 h4 h5 h6 h7
            subst h1; subst h2; subst h3; subst h4; subst h5; subst h6; subst h7
            refine ⟨createChildren_m_min _ _ _, createChildren_m_min _ _ _,
              createChildren_m_min _ _ _, createChildren_m_min _ _ _, ?_⟩
            intro p
            rw [createChildren_m_min, createChildren_m_min, createChildren_m_min,
              createChildren_m_min, createChildren_m_size, createChildren_m_size,
              createChildren_m_size, createChildren_m_size]
            exact quadrant_countP m.x m.z s p
          · simpa [TerrainQuad.m_lod] using hl8
          · intro hfalse; simp [TerrainQuad.hasChildren] at hfalse
        · rcases hq4 with ((h | h) | h) | h <;>
            exact ih (l + 1) _ _ (by omega) (by omega) q h
      · rw [dif_neg hc] at hq
        simp only [subquads, List.mem_singleton] at hq
        subst hq
        refine ⟨?_, ?_, ?_, ?_, ?_⟩
        · simp only [TerrainQuad.hasChildren, TerrainQuad.m_lod, TerrainQuad.m_size]
          exact iff_of_false (by simp) hc
        · intro c hcm; simp [TerrainQuad.childList] at hcm
        · intro mm ss ll tl tr bl br heq; cases heq
        · simpa [TerrainQuad.m_lod] using hl8
        · intro _
          rcases not_and_or.mp hc with h | h
          · right; simp only [TerrainQuad.m_lod]; omega
          · left; simp only [TerrainQuad.m_size]; linarith [not_lt.mp h]

/-- C2: in every quad tree produced by `generateQuadTree size`, a node has
children iff `lod < 8 ∧ size > 16`; each child has half the parent's size and
the parent's LOD plus one; the four children sit at the top-left, top-right,
bottom-left, bottom-right quadrant corners and their (half-open) squares
exactly partition the parent's square (every point is in the parent square
iff it is in exactly one child square); no node's LOD exceeds 8; and every
childless node has `size ≤ 16` or `lod = 8`. -/
theorem quadtree_structure_invariants (size : ℚ) (q : TerrainQuad)
    (hq : q ∈ subquads (generateQuadTree size)) :
    (q.hasChildren = true ↔ (q.m_lod < 8 ∧ 16 < q.m_size)) ∧
    (∀ c ∈ q.childList, c.m_size = q.m_size / 2 ∧ c.m_lod = q.m_lod + 1) ∧
    (∀ mm ss ll tl tr bl br, q = .node mm ss ll tl tr bl br →
      tl.m_min = mm ∧ tr.m_min = ⟨mm.x + ss / 2, 0, mm.z⟩ ∧
      bl.m_min = ⟨mm.x, 0, mm.z + ss / 2⟩ ∧
      br.m_min = ⟨mm.x + ss / 2, 0, mm.z + ss / 2⟩ ∧
      ∀ p : ℚ × ℚ,
        ((if inSquareB tl.m_min.x tl.m_min.z tl.m_size p = true then 1 else 0) +
         (if inSquareB tr.m_min.x tr.m_min.z tr.m_size p = true then 1 else 0) +
         (if inSquareB bl.m_min.x bl.m_min.z bl.m_size p = true then 1 else 0) +
         (if inSquareB br.m_min.x br.m_min.z br.m_size p = true then 1 else 0) : ℕ) =
          if inSquareB mm.x mm.z ss p = true then 1 else 0) ∧
    q.m_lod ≤ 8 ∧
    (q.hasChildren = false → q.m_size ≤ 16 ∨ q.m_lod = 8) := by
  rw [generateQuadTree] at hq
  exact quad_inv_aux 8 1 ⟨0, 0, 0⟩ size (by omega) (by omega) q hq

/-- Witness for C2 at a concrete tree: the root of `generateQuadTree 8`
(a childless root of size 8 at LOD 1). -/
theorem quadtree_structure_invariants_witness :
    TerrainQuad.leaf ⟨0, 0, 0⟩ 8 1 ∈ subquads (generateQuadTree 8) ∧
    ((TerrainQuad.leaf ⟨0, 0, 0⟩ 8 1).hasChildren = false →
      (TerrainQuad.leaf ⟨0, 0, 0⟩ 8 1).m_size ≤ 16 ∨
        (TerrainQuad.leaf ⟨0, 0, 0⟩ 8 1).m_lod = 8) := by
  have hq : TerrainQuad.leaf ⟨0, 0, 0⟩ 8 1 ∈ subquads (generateQuadTree 8) := by
    rw [generateQuadTree, createChildren.eq_def, dif_neg (by norm_num)]
    simp [subquads]
  exact ⟨hq, (quadtree_structure_invariants 8 _ hq).2.2.2.2⟩

/-- `createChildren` builds geometrically well-formed trees. -/
theorem createChildren_wf : ∀ (fuel : ℕ) (m : Vec3q) (s : ℚ) (l : ℕ), 8 - l ≤ fuel →
    wfQuad (createChildren m s l) := by
  intro fuel
  induction fuel with
  | zero =>
      intro m s l h
      rw [createChildren.eq_def, dif_neg (fun hch => by omega)]
      trivial
  | succ n ih =>
      intro m s l h
      rw [createChildren.eq_def]
      by_cases hc : l < 8 ∧ 16 < s
      · rw [dif_pos hc]
        refine ⟨createChildren_m_min _ _ _, createChildren_m_size _ _ _,
          createChildren_m_min _ _ _, createChildren_m_size _ _ _,
          createChildren_m_min _ _ _, createChildren_m_size _ _ _,
          createChildren_m_min _ _ _, createChildren_m_size _ _ _,
          ?_, ?_, ?_, ?_⟩ <;> exact ih _ _ (l + 1) (by omega)
      · rw [dif_neg hc]
        trivial

/-- A node that declines to render issues no draw calls. -/
theorem render_false_draws (cam : Vec3q) (q : TerrainQuad) :
    (render cam q).1 = false → (render cam q).2 = [] := by
  cases q <;> simp only [render] <;> split <;> simp

/-- A node at the coarsest LOD (1) never declines. -/
theorem render_lod1 (cam : Vec3q) (q : TerrainQuad) (h : q.m_lod = 1) :
    (render cam q).1 = true := by
  cases q <;> simp only [TerrainQuad.m_lod] at h <;> subst h <;> simp [render]

/-- Coverage: a rendering well-formed node's draws cover each point of its
half-open square exactly once (and no point outside it). -/
theorem render_covers (cam : Vec3q) : ∀ (q : TerrainQuad), wfQuad q →
    (render cam q).1 = true →
    ∀ p : ℚ × ℚ, ((render cam q).2.countP (fun d => coversB d p)) =
      if inSquareB q.m_min.x q.m_min.z q.m_size p = true then 1 else 0 := by
  intro q
  induction q with
  | leaf m s lod =>
      intro _ htrue p
      simp only [render] at htrue ⊢
      by_cases hg : (tooFar m s cam && decide (1 < lod)) = true
      · rw [if_pos hg] at htrue
        exact absurd htrue (by simp)
      · rw [if_neg hg]
        simp only [TerrainQuad.m_min, TerrainQuad.m_size, List.singleton_append,
          List.cons_append, List.nil_append, List.countP_cons, List.countP_nil,
          coversB, quadCorner]
        norm_num
        linarith [quadrant_countP m.x m.z s p]
  | node m s lod tl tr bl br ihtl ihtr ihbl ihbr =>
      intro hwf htrue p
      obtain ⟨htlm, htls, htrm, htrs, hblm, hbls, hbrm, hbrs, wtl, wtr, wbl, wbr⟩ := hwf
      simp only [render] at htrue ⊢
      by_cases hg : (tooFar m s cam && decide (1 < lod)) = true
      · rw [if_pos hg] at htrue
        exact absurd htrue (by simp)
      · rw [if_neg hg]
        have htl : List.countP (fun d => coversB d p) (childDraws m s 0 (render cam tl)) =
            if inSquareB m.x m.z (s / 2) p = true then 1 else 0 := by
          cases hres : (render cam tl).1 with
          | false =>
              rw [childDraws, hres, render_false_draws cam tl hres]
              simp only [Bool.false_eq_true, if_false, List.nil_append,
                List.countP_cons, List.countP_nil, coversB, quadCorner]
              norm_num
          | true =>
              rw [childDraws, hres, if_pos rfl, ihtl wtl hres p, htlm, htls]
        have htr : List.countP (fun d => coversB d p) (childDraws m s 1 (render cam tr)) =
            if inSquareB (m.x + s / 2) m.z (s / 2) p = true then 1 else 0 := by
          cases hres : (render cam tr).1 with
          | false =>
              rw [childDraws, hres, render_false_draws cam tr hres]
              simp only [Bool.false_eq_true, if_false, List.nil_append,
                List.countP_cons, List.countP_nil, coversB, quadCorner]
              norm_num
          | true =>
              rw [childDraws, hres, if_pos rfl, ihtr wtr hres p, htrm, htrs]
        have hbl : List.countP (fun d => coversB d p) (childDraws m s 2 (render cam bl)) =
            if inSquareB m.x (m.z + s / 2) (s / 2) p = true then 1 else 0 := by
          cases hres : (render cam bl).1 with
          | false =>
              rw [childDraws, hres, render_false_draws cam bl hres]
              simp only [Bool.false_eq_true, if_false, List.nil_append,
                List.countP_cons, List.countP_nil, coversB, quadCorner]
              norm_num
          | true =>
              rw [childDraws, hres, if_pos rfl, ihbl wbl hres p, hblm, hbls]
        have hbr : List.countP (fun d => coversB d p) (childDraws m s 3 (render cam br)) =
            if inSquareB (m.x + s / 2) (m.z + s / 2) (s / 2) p = true then 1 else 0 := by
          cases hres : (render cam br).1 with
          | false =>
              rw [childDraws, hres, render_false_draws cam br hres]
              simp only [Bool.false_eq_true, if_false, List.nil_append,
                List.countP_cons, List.countP_nil, coversB, quadCorner]
              norm_num
          | true =>
              rw [childDraws, hres, if_pos rfl, ihbr wbr hres p, hbrm, hbrs]
        simp only [TerrainQuad.m_min, TerrainQuad.m_size, List.countP_append]
        rw [htl, htr, hbl, hbr]
        exact quadrant_countP m.x m.z s p

/-- C1: for every quad tree built by `generateQuadTree` and every camera
position, the draw calls issued by one `render` traversal from the root cover
every point of the root's half-open square footprint exactly once and cover
no point outside it — the root (LOD 1) never declines, and a node whose child
declines draws that child's quarter itself. -/
theorem quadtree_render_partitions_root (size : ℚ) (camera_pos : Vec3q) (p : ℚ × ℚ) :
    ((render camera_pos (generateQuadTree size)).2.countP (fun d => coversB d p)) =
      if inSquareB 0 0 size p = true then 1 else 0 := by
  have hwf : wfQuad (generateQuadTree size) := createChildren_wf 8 _ _ 1 (by omega)
  have htrue : (render camera_pos (generateQuadTree size)).1 = true :=
    render_lod1 camera_pos _ (by rw [generateQuadTree, createChildren_m_lod])
  have h := render_covers camera_pos (generateQuadTree size) hwf htrue p
  rw [h, generateQuadTree, createChildren_m_min, createChildren_m_size]

/-- C5 (evaluation of the code at the claim's failing input): a debug line
added with life `1.0` is untouched by `update 0.6` followed by `update 0.5` —
the loop decrements a local copy of the lifetime and never stores it back,
so decrements do not accumulate and the line survives both calls with its
stored lifetime still `1.0` (the claim says the second call removes it). -/
theorem update_keeps_line_despite_cumulative_expiry :
    update (update (addDebugLine emptyScene ⟨0, 0, 0⟩ ⟨1, 0, 0⟩ ⟨1, 1, 1⟩ 1) (3 / 5)) (1 / 2) =
      addDebugLine emptyScene ⟨0, 0, 0⟩ ⟨1, 0, 0⟩ ⟨1, 1, 1⟩ 1 := by
  simp only [addDebugLine, emptyScene, update, List.nil_append]
  norm_num [updateLoop, List.get?]

/-- C10: `getLight` leaves the scene unchanged, returns the invalid
component (`none`) exactly when the index is out of range, and otherwise
returns the component carrying the light's entity, the light type tag and
the queried index. -/
theorem getLight_bounds_check (s : Scene) (index : ℕ) :
    (getLight s index).1 = s ∧
    ((getLight s index).2 = none ↔ s.m_lights.length ≤ index) ∧
    (∀ h : index < s.m_lights.length,
      (getLight s index).2 =
        some ⟨(s.m_lights.get ⟨index, h⟩).m_entity, CompType.light, index⟩) := by
  refine ⟨rfl, ?_, ?_⟩
  · by_cases h : index < s.m_lights.length
    · simp only [getLight, dif_pos h]
      constructor
      · intro hx; exact absurd hx (by simp)
      · intro hx; exact absurd hx (by omega)
    · simp only [getLight, dif_neg h]
      constructor
      · intro _; omega
      · intro _; trivial
  · intro h
    simp only [getLight, dif_pos h]

/-- Witness for C10 on a concrete scene with one light. -/
theorem getLight_bounds_check_witness :
    0 < (Scene.mk [] [⟨0, 7⟩] [] [] []).m_lights.length ∧
    (getLight (Scene.mk [] [⟨0, 7⟩] [] [] []) 0).2 = some ⟨7, CompType.light, 0⟩ :=
  ⟨by decide, (getLight_bounds_check (Scene.mk [] [⟨0, 7⟩] [] [] []) 0).2.2 (by decide)⟩

/-! ### Radius and distance lemmas over the reals -/

theorem sqrt_two_gt_one : 1 < Real.sqrt 2 := by
  rw [show (1 : ℝ) = Real.sqrt 1 from Real.sqrt_one.symm]
  exact Real.sqrt_lt_sqrt (by norm_num) (by norm_num)

theorem sqrt_sq_rat (s : ℚ) (h : 0 ≤ s) :
    Real.sqrt (2 * (s : ℝ) * s) = Real.sqrt 2 * s := by
  rw [show (2 : ℝ) * s * s = 2 * ((s : ℝ) * s) by ring,
    Real.sqrt_mul (by norm_num), Real.sqrt_mul_self (by exact_mod_cast h)]

/-- C9: `getRadiusOuter` (i.e. `getRadiusOuterCoeff S * sqrt (2*S*S) + S*0.25`)
is positive for every positive size and monotone non-decreasing in the size,
including across the piecewise coefficient switch at `S = 17`. -/
theorem outerRadius_positive_monotone (S1 S2 : ℚ) (h1 : 0 < S1) (h12 : S1 ≤ S2) :
    0 < (getRadiusOuterCoeff S1 : ℝ) * Real.sqrt (2 * (S1 : ℝ) * S1) + (S1 : ℝ) * (1 / 4) ∧
    (getRadiusOuterCoeff S1 : ℝ) * Real.sqrt (2 * (S1 : ℝ) * S1) + (S1 : ℝ) * (1 / 4) ≤
      (getRadiusOuterCoeff S2 : ℝ) * Real.sqrt (2 * (S2 : ℝ) * S2) + (S2 : ℝ) * (1 / 4) := by
  have h2 : 0 < S2 := lt_of_lt_of_le h1 h12
  have h1R : (0 : ℝ) < S1 := by exact_mod_cast h1
  have h2R : (0 : ℝ) < S2 := by exact_mod_cast h2
  have h12R : (S1 : ℝ) ≤ S2 := by exact_mod_cast h12
  have hs := sqrt_two_gt_one
  rw [sqrt_sq_rat S1 h1.le, sqrt_sq_rat S2 h2.le]
  constructor
  · have hcoe : (1 : ℝ) ≤ (getRadiusOuterCoeff S1 : ℝ) := by
      rw [getRadiusOuterCoeff]
      split_ifs <;> norm_num
    have hsp : (0 : ℝ) < Real.sqrt 2 * S1 := by nlinarith
    have hmul : Real.sqrt 2 * (S1 : ℝ) ≤ (getRadiusOuterCoeff S1 : ℝ) * (Real.sqrt 2 * S1) :=
      le_mul_of_one_le_left hsp.le hcoe
    linarith
  · rw [getRadiusOuterCoeff, getRadiusOuterCoeff]
    by_cases hc1 : 17 < S1
    · have hc2 : 17 < S2 := lt_of_lt_of_le hc1 h12
      rw [if_pos hc1, if_pos hc2]
      push_cast
      nlinarith
    · by_cases hc2 : 17 < S2
      · rw [if_neg hc1, if_pos hc2]
        push_cast
        nlinarith
      · rw [if_neg hc1, if_neg hc2]
        push_cast
        nlinarith

/-- Witness for C9 at sizes 1 and 2. -/
theorem outerRadius_positive_monotone_witness :
    0 < (1 : ℚ) ∧ (1 : ℚ) ≤ 2 ∧
      (0 < (getRadiusOuterCoeff 1 : ℝ) * Real.sqrt (2 * ((1 : ℚ) : ℝ) * ((1 : ℚ) : ℝ)) +
          ((1 : ℚ) : ℝ) * (1 / 4) ∧
        (getRadiusOuterCoeff 1 : ℝ) * Real.sqrt (2 * ((1 : ℚ) : ℝ) * ((1 : ℚ) : ℝ)) +
            ((1 : ℚ) : ℝ) * (1 / 4) ≤
          (getRadiusOuterCoeff 2 : ℝ) * Real.sqrt (2 * ((2 : ℚ) : ℝ) * ((2 : ℚ) : ℝ)) +
            ((2 : ℚ) : ℝ) * (1 / 4)) :=
  ⟨by norm_num, by norm_num, outerRadius_positive_monotone 1 2 (by norm_num) (by norm_num)⟩

/-- The exact rational test `sqrt2Pos` decides positivity of `a + b * √2`. -/
theorem sqrt2Pos_iff (a b : ℚ) :
    sqrt2Pos a b = true ↔ 0 < (a : ℝ) + (b : ℝ) * Real.sqrt 2 := by
  have h2 : Real.sqrt 2 * Real.sqrt 2 = 2 := Real.mul_self_sqrt (by norm_num)
  have h0 : (0 : ℝ) ≤ Real.sqrt 2 := Real.sqrt_nonneg 2
  have h1 := sqrt_two_gt_one
  rw [sqrt2Pos]
  split_ifs with hb
  · have hbR : (0 : ℝ) ≤ (b : ℝ) := by exact_mod_cast hb
    have hu : (b : ℝ) * Real.sqrt 2 * ((b : ℝ) * Real.sqrt 2) = 2 * ((b : ℝ) * b) := by
      rw [show (b : ℝ) * Real.sqrt 2 * ((b : ℝ) * Real.sqrt 2) =
        (b : ℝ) * b * (Real.sqrt 2 * Real.sqrt 2) from by ring, h2]
      ring
    simp only [Bool.or_eq_true, decide_eq_true_eq]
    constructor
    · rintro (ha | hab)
      · have haR : (0 : ℝ) < a := by exact_mod_cast ha
        nlinarith [mul_nonneg hbR h0]
      · have habR : (a : ℝ) * a < 2 * ((b : ℝ) * b) := by exact_mod_cast hab
        nlinarith [mul_nonneg hbR h0]
    · intro hpos
      by_cases ha : 0 < a
      · exact Or.inl ha
      · right
        have haR : (a : ℝ) ≤ 0 := by exact_mod_cast not_lt.mp ha
        have : (a : ℝ) * a < 2 * ((b : ℝ) * b) := by
          nlinarith [mul_nonneg hbR h0]
        exact_mod_cast this
  · push_neg at hb
    have hbR : (b : ℝ) < 0 := by exact_mod_cast hb
    have hu : (b : ℝ) * Real.sqrt 2 * ((b : ℝ) * Real.sqrt 2) = 2 * ((b : ℝ) * b) := by
      rw [show (b : ℝ) * Real.sqrt 2 * ((b : ℝ) * Real.sqrt 2) =
        (b : ℝ) * b * (Real.sqrt 2 * Real.sqrt 2) from by ring, h2]
      ring
    simp only [Bool.and_eq_true, decide_eq_true_eq]
    constructor
    · rintro ⟨ha, hab⟩
      have haR : (0 : ℝ) < a := by exact_mod_cast ha
      have habR : 2 * ((b : ℝ) * b) < (a : ℝ) * a := by exact_mod_cast hab
      nlinarith [mul_nonneg (neg_nonneg.mpr hbR.le) h0]
    · intro hpos
      have haR : (0 : ℝ) < a := by nlinarith [mul_nonneg (neg_nonneg.mpr hbR.le) h0]
      have habR : 2 * ((b : ℝ) * b) < (a : ℝ) * a := by
        nlinarith [mul_nonneg (neg_nonneg.mpr hbR.le) h0]
      exact ⟨by exact_mod_cast haR, by exact_mod_cast habR⟩

theorem getDistanceSq_nonneg (m_min : Vec3q) (m_size : ℚ) (cam : Vec3q) :
    0 ≤ getDistanceSq m_min m_size cam := by
  simp only [getDistanceSq]
  split_ifs <;>
    nlinarith [mul_self_nonneg (m_min.x - cam.x), mul_self_nonneg (m_min.x + m_size - cam.x),
      mul_self_nonneg (m_min.z - cam.z), mul_self_nonneg (m_min.z + m_size - cam.z)]

/-- The pruning test of `render` is exactly the source's comparison
`getDistance(camera) > getRadiusOuter(size)` over the reals. -/
theorem tooFar_iff (m_min : Vec3q) (m_size : ℚ) (cam : Vec3q) :
    tooFar m_min m_size cam = true ↔
      (getRadiusOuterCoeff m_size : ℝ) * Real.sqrt (2 * (m_size : ℝ) * m_size) +
          (m_size : ℝ) * (1 / 4) <
        Real.sqrt (getDistanceSq m_min m_size cam) := by
  have h2 : Real.sqrt 2 * Real.sqrt 2 = 2 := Real.mul_self_sqrt (by norm_num)
  have hsq : Real.sqrt (2 * (m_size : ℝ) * m_size) = Real.sqrt 2 * |(m_size : ℝ)| := by
    rw [show (2 : ℝ) * m_size * m_size = 2 * ((m_size : ℝ) * m_size) from by ring,
      Real.sqrt_mul (by norm_num), Real.sqrt_mul_self_eq_abs]
  have hdsq0 : (0 : ℝ) ≤ ((getDistanceSq m_min m_size cam : ℚ) : ℝ) := by
    exact_mod_cast getDistanceSq_nonneg m_min m_size cam
  have hsqrt0 : (0 : ℝ) ≤ Real.sqrt (getDistanceSq m_min m_size cam) := Real.sqrt_nonneg _
  rw [tooFar]
  simp only [Bool.or_eq_true, sqrt2Pos_iff]
  rw [hsq]
  push_cast
  constructor
  · rintro (hneg | hsqlt)
    · have hR : (getRadiusOuterCoeff m_size : ℝ) * (Real.sqrt 2 * |(m_size : ℝ)|) +
          (m_size : ℝ) * (1 / 4) < 0 := by nlinarith
      linarith
    · set A : ℝ := (m_size : ℝ) * (1 / 4) with hA
      set B : ℝ := (getRadiusOuterCoeff m_size : ℝ) * |(m_size : ℝ)| with hB
      have hgoal : (getRadiusOuterCoeff m_size : ℝ) * (Real.sqrt 2 * |(m_size : ℝ)|) +
          (m_size : ℝ) * (1 / 4) = A + B * Real.sqrt 2 := by rw [hA, hB]; ring
      rw [hgoal]
      have hR2 : (A + B * Real.sqrt 2) ^ 2 = A * A + 2 * (B * B) + 2 * (A * B) * Real.sqrt 2 := by
        rw [show (A + B * Real.sqrt 2) ^ 2 =
          A * A + B * B * (Real.sqrt 2 * Real.sqrt 2) + 2 * (A * B) * Real.sqrt 2 from by ring,
          h2]
        ring
      have hlt : (A + B * Real.sqrt 2) ^ 2 < ((getDistanceSq m_min m_size cam : ℚ) : ℝ) := by
        rw [hR2]; linarith
      rcases le_or_lt 0 (A + B * Real.sqrt 2) with hRpos | hRneg
      · exact (Real.lt_sqrt hRpos).mpr hlt
      · linarith
  · intro hlt
    set A : ℝ := (m_size : ℝ) * (1 / 4) with hA
    set B : ℝ := (getRadiusOuterCoeff m_size : ℝ) * |(m_size : ℝ)| with hB
    have hgoal : (getRadiusOuterCoeff m_size : ℝ) * (Real.sqrt 2 * |(m_size : ℝ)|) +
        (m_size : ℝ) * (1 / 4) = A + B * Real.sqrt 2 := by rw [hA, hB]; ring
    rw [hgoal] at hlt
    rcases lt_or_le (A + B * Real.sqrt 2) 0 with hRneg | hRpos
    · left; nlinarith
    · right
      have hsqlt : (A + B * Real.sqrt 2) ^ 2 < ((getDistanceSq m_min m_size cam : ℚ) : ℝ) :=
        (Real.lt_sqrt hRpos).mp hlt
      have hR2 : (A + B * Real.sqrt 2) ^ 2 = A * A + 2 * (B * B) + 2 * (A * B) * Real.sqrt 2 := by
        rw [show (A + B * Real.sqrt 2) ^ 2 =
          A * A + B * B * (Real.sqrt 2 * Real.sqrt 2) + 2 * (A * B) * Real.sqrt 2 from by ring,
          h2]
        ring
      rw [hR2] at hsqlt
      linarith

/-- Per-axis gap of `getDistance`, rewritten as the distance to the clamped
coordinate. -/
theorem axis_gap_eq (mn s c : ℚ) (h : 0 ≤ s) :
    ((if c < mn then (mn - c) * (mn - c) else 0) +
     (if c > mn + s then (mn + s - c) * (mn + s - c) else 0)) =
      (c - max mn (min c (mn + s))) ^ 2 := by
  rcases lt_or_le c mn with hx | hx
  · rw [if_pos hx, if_neg (by simp only [gt_iff_lt, not_lt]; linarith)]
    rw [min_eq_left (by linarith), max_eq_left (by linarith)]
    ring
  · rcases le_or_lt c (mn + s) with hx2 | hx2
    · rw [if_neg (not_lt.mpr hx), if_neg (by simp only [gt_iff_lt, not_lt]; linarith)]
      rw [min_eq_left hx2, max_eq_right hx]
      ring
    · rw [if_neg (not_lt.mpr hx), if_pos hx2]
      rw [min_eq_right hx2.le, max_eq_right (by linarith)]
      ring

/-- `getDistanceSq` is the squared distance to the clamped (nearest) point of
the footprint. -/
theorem getDistanceSq_eq_clamp (m_min : Vec3q) (m_size : ℚ) (cam : Vec3q) (h : 0 ≤ m_size) :
    getDistanceSq m_min m_size cam =
      (cam.x - max m_min.x (min cam.x (m_min.x + m_size))) ^ 2 +
      (cam.z - max m_min.z (min cam.z (m_min.z + m_size))) ^ 2 := by
  have hx := axis_gap_eq m_min.x m_size cam.x h
  have hz := axis_gap_eq m_min.z m_size cam.z h
  simp only [getDistanceSq]
  linarith [hx, hz]

/-- The clamped coordinate is nearest on each axis (over the reals). -/
theorem clamp_nearest_real (a b c p : ℝ) (h1 : a ≤ p) (h2 : p ≤ b) :
    (c - max a (min c b)) ^ 2 ≤ (c - p) ^ 2 := by
  rcases lt_or_le c a with hc | hc
  · rw [min_eq_left (by linarith : c ≤ b), max_eq_left hc.le]
    nlinarith
  · rcases le_or_lt c b with hc2 | hc2
    · rw [min_eq_left hc2, max_eq_right hc, sub_self]
      simpa using sq_nonneg (c - p)
    · rw [min_eq_right hc2.le, max_eq_right (by linarith : a ≤ b)]
      nlinarith

/-- C8: `getDistance` (the square root of `getDistanceSq`) is zero iff the
camera's `(x,z)` projection lies inside the node's closed square footprint,
and otherwise equals the Euclidean distance from that projection to the
nearest point of the square: it is the least element of the set of Euclidean
distances from the camera's `(x,z)` to points of the square (`y` ignored). -/
theorem getDistance_zero_iff_inside_and_nearest (m_min : Vec3q) (m_size : ℚ) (cam : Vec3q)
    (h : 0 ≤ m_size) :
    (Real.sqrt (getDistanceSq m_min m_size cam) = 0 ↔
      (m_min.x ≤ cam.x ∧ cam.x ≤ m_min.x + m_size ∧
       m_min.z ≤ cam.z ∧ cam.z ≤ m_min.z + m_size)) ∧
    IsLeast {d : ℝ | ∃ px pz : ℝ,
        (m_min.x : ℝ) ≤ px ∧ px ≤ (m_min.x : ℝ) + m_size ∧
        (m_min.z : ℝ) ≤ pz ∧ pz ≤ (m_min.z : ℝ) + m_size ∧
        d = Real.sqrt (((cam.x : ℝ) - px) ^ 2 + ((cam.z : ℝ) - pz) ^ 2)}
      (Real.sqrt (getDistanceSq m_min m_size cam)) := by
  have hclamp := getDistanceSq_eq_clamp m_min m_size cam h
  have habx : m_min.x ≤ m_min.x + m_size := by linarith
  have habz : m_min.z ≤ m_min.z + m_size := by linarith
  have hD0 : (0 : ℚ) ≤ getDistanceSq m_min m_size cam := by rw [hclamp]; positivity
  have hclR : ((getDistanceSq m_min m_size cam : ℚ) : ℝ) =
      ((cam.x : ℝ) - max (m_min.x : ℝ) (min (cam.x : ℝ) ((m_min.x : ℝ) + m_size))) ^ 2 +
      ((cam.z : ℝ) - max (m_min.z : ℝ) (min (cam.z : ℝ) ((m_min.z : ℝ) + m_size))) ^ 2 := by
    rw [hclamp]; push_cast; ring
  constructor
  · rw [Real.sqrt_eq_zero']
    constructor
    · intro hle
      have hD : getDistanceSq m_min m_size cam = 0 :=
        le_antisymm (by exact_mod_cast hle) hD0
      rw [hclamp] at hD
      have hgx : (cam.x - max m_min.x (min cam.x (m_min.x + m_size))) ^ 2 = 0 := by
        nlinarith [sq_nonneg (cam.x - max m_min.x (min cam.x (m_min.x + m_size))),
          sq_nonneg (cam.z - max m_min.z (min cam.z (m_min.z + m_size)))]
      have hgz : (cam.z - max m_min.z (min cam.z (m_min.z + m_size))) ^ 2 = 0 := by
        nlinarith [sq_nonneg (cam.x - max m_min.x (min cam.x (m_min.x + m_size))),
          sq_nonneg (cam.z - max m_min.z (min cam.z (m_min.z + m_size)))]
      have hgx0 : cam.x = max m_min.x (min cam.x (m_min.x + m_size)) := by
        have := (pow_eq_zero_iff two_ne_zero).mp hgx
        linarith [sub_eq_zero.mp this]
      have hgz0 : cam.z = max m_min.z (min cam.z (m_min.z + m_size)) := by
        have := (pow_eq_zero_iff two_ne_zero).mp hgz
        linarith [sub_eq_zero.mp this]
      refine ⟨?_, ?_, ?_, ?_⟩
      · rw [hgx0]; exact le_max_left _ _
      · rw [hgx0]; exact max_le habx (min_le_right _ _)
      · rw [hgz0]; exact le_max_left _ _
      · rw [hgz0]; exact max_le habz (min_le_right _ _)
    · rintro ⟨hx1, hx2, hz1, hz2⟩
      have hqx : max m_min.x (min cam.x (m_min.x + m_size)) = cam.x := by
        rw [min_eq_left hx2, max_eq_right hx1]
      have hqz : max m_min.z (min cam.z (m_min.z + m_size)) = cam.z := by
        rw [min_eq_left hz2, max_eq_right hz1]
      have : getDistanceSq m_min m_size cam = 0 := by
        rw [hclamp, hqx, hqz]; ring
      rw [this]; norm_num
  · constructor
    · refine ⟨max (m_min.x : ℝ) (min (cam.x : ℝ) ((m_min.x : ℝ) + m_size)),
        max (m_min.z : ℝ) (min (cam.z : ℝ) ((m_min.z : ℝ) + m_size)),
        le_max_left _ _, max_le (by exact_mod_cast habx) (min_le_right _ _),
        le_max_left _ _, max_le (by exact_mod_cast habz) (min_le_right _ _), ?_⟩
      rw [hclR]
    · rintro d ⟨px, pz, hpx1, hpx2, hpz1, hpz2, rfl⟩
      apply Real.sqrt_le_sqrt
      rw [hclR]
      have h1 := clamp_nearest_real (m_min.x : ℝ) ((m_min.x : ℝ) + m_size) (cam.x : ℝ) px hpx1 hpx2
      have h2 := clamp_nearest_real (m_min.z : ℝ) ((m_min.z : ℝ) + m_size) (cam.z : ℝ) pz hpz1 hpz2
      linarith

/-- Witness for C8 at a concrete node and camera (camera inside the square,
distance 0; the nearest point is the camera's own projection). -/
theorem getDistance_zero_iff_inside_and_nearest_witness :
    (0 : ℚ) ≤ 4 ∧
      ((Real.sqrt (getDistanceSq ⟨0, 0, 0⟩ 4 ⟨1, 0, 1⟩) = 0 ↔
        ((⟨0, 0, 0⟩ : Vec3q).x ≤ (⟨1, 0, 1⟩ : Vec3q).x ∧
         (⟨1, 0, 1⟩ : Vec3q).x ≤ (⟨0, 0, 0⟩ : Vec3q).x + 4 ∧
         (⟨0, 0, 0⟩ : Vec3q).z ≤ (⟨1, 0, 1⟩ : Vec3q).z ∧
         (⟨1, 0, 1⟩ : Vec3q).z ≤ (⟨0, 0, 0⟩ : Vec3q).z + 4)) ∧
      IsLeast {d : ℝ | ∃ px pz : ℝ,
          ((⟨0, 0, 0⟩ : Vec3q).x : ℝ) ≤ px ∧ px ≤ ((⟨0, 0, 0⟩ : Vec3q).x : ℝ) + 4 ∧
          ((⟨0, 0, 0⟩ : Vec3q).z : ℝ) ≤ pz ∧ pz ≤ ((⟨0, 0, 0⟩ : Vec3q).z : ℝ) + 4 ∧
          d = Real.sqrt ((((⟨1, 0, 1⟩ : Vec3q).x : ℝ) - px) ^ 2 +
            (((⟨1, 0, 1⟩ : Vec3q).z : ℝ) - pz) ^ 2)}
        (Real.sqrt (getDistanceSq ⟨0, 0, 0⟩ 4 ⟨1, 0, 1⟩))) :=
  ⟨by norm_num, getDistance_zero_iff_inside_and_nearest ⟨0, 0, 0⟩ 4 ⟨1, 0, 1⟩ (by norm_num)⟩

/-! ### Ray casting -/

/-- The exact rational decision procedure `getRaySphereIntersection` agrees
with the real-valued semantics: some point of the ray `origin + t * dir`,
`t ≥ 0`, lies within the closed sphere. -/
theorem getRaySphereIntersection_iff (c : Vec3q) (r : ℚ) (o d : Vec3q) :
    getRaySphereIntersection c r o d = true ↔
      ∃ t : ℝ, 0 ≤ t ∧
        (((o.x : ℝ) + t * d.x - c.x) ^ 2 + ((o.y : ℝ) + t * d.y - c.y) ^ 2 +
          ((o.z : ℝ) + t * d.z - c.z) ^ 2) ≤ (r : ℝ) * r := by
  have hQ : ∀ t : ℝ,
      ((o.x : ℝ) + t * d.x - c.x) ^ 2 + ((o.y : ℝ) + t * d.y - c.y) ^ 2 +
        ((o.z : ℝ) + t * d.z - c.z) ^ 2 =
      (dotProduct d d : ℝ) * t ^ 2 - 2 * (dotProduct (c.sub o) d : ℝ) * t +
        (dotProduct (c.sub o) (c.sub o) : ℝ) := by
    intro t
    simp only [dotProduct, Vec3q.sub]
    push_cast
    ring
  by_cases ha : dotProduct d d = 0
  · have hsum : d.x * d.x + d.y * d.y + d.z * d.z = 0 := by simpa [dotProduct] using ha
    have hdx : d.x = 0 := mul_self_eq_zero.mp (le_antisymm
      (by nlinarith [mul_self_nonneg d.y, mul_self_nonneg d.z]) (mul_self_nonneg d.x))
    have hdy : d.y = 0 := mul_self_eq_zero.mp (le_antisymm
      (by nlinarith [mul_self_nonneg d.x, mul_self_nonneg d.z]) (mul_self_nonneg d.y))
    have hdz : d.z = 0 := mul_self_eq_zero.mp (le_antisymm
      (by nlinarith [mul_self_nonneg d.x, mul_self_nonneg d.y]) (mul_self_nonneg d.z))
    have htca : dotProduct (c.sub o) d = 0 := by
      simp [dotProduct, Vec3q.sub, hdx, hdy, hdz]
    have hv : dotProduct ((o.add (Vec3q.smul 0 d)).sub c) ((o.add (Vec3q.smul 0 d)).sub c) =
        dotProduct (c.sub o) (c.sub o) := by
      simp only [dotProduct, Vec3q.add, Vec3q.smul, Vec3q.sub]
      ring
    simp only [getRaySphereIntersection, if_pos ha, decide_eq_true_eq]
    constructor
    · intro hcond
      refine ⟨0, le_refl 0, ?_⟩
      rw [hQ 0]
      have : (dotProduct (c.sub o) (c.sub o) : ℚ) ≤ r * r := hv ▸ hcond
      have hR : ((dotProduct (c.sub o) (c.sub o) : ℚ) : ℝ) ≤ (r : ℝ) * r := by exact_mod_cast this
      push_cast
      push_cast at hR
      linarith
    · rintro ⟨t, _, hle⟩
      rw [hQ t] at hle
      have haR : ((dotProduct d d : ℚ) : ℝ) = 0 := by exact_mod_cast ha
      have htcaR : ((dotProduct (c.sub o) d : ℚ) : ℝ) = 0 := by exact_mod_cast htca
      rw [haR, htcaR] at hle
      have hLL : ((dotProduct (c.sub o) (c.sub o) : ℚ) : ℝ) ≤ (r : ℝ) * r := by linarith
      rw [hv]
      exact_mod_cast hLL
  · have haQnn : (0 : ℚ) ≤ dotProduct d d := by
      simp only [dotProduct]
      nlinarith [mul_self_nonneg d.x, mul_self_nonneg d.y, mul_self_nonneg d.z]
    have haQ : 0 < dotProduct d d := lt_of_le_of_ne haQnn (Ne.symm ha)
    have haR : (0 : ℝ) < (dotProduct d d : ℝ) := by exact_mod_cast haQ
    simp only [getRaySphereIntersection, if_neg ha, decide_eq_true_eq]
    have hvQ : dotProduct
        ((o.add (Vec3q.smul (max (dotProduct (c.sub o) d / dotProduct d d) 0) d)).sub c)
        ((o.add (Vec3q.smul (max (dotProduct (c.sub o) d / dotProduct d d) 0) d)).sub c) =
        dotProduct d d * (max (dotProduct (c.sub o) d / dotProduct d d) 0) ^ 2 -
          2 * dotProduct (c.sub o) d * (max (dotProduct (c.sub o) d / dotProduct d d) 0) +
          dotProduct (c.sub o) (c.sub o) := by
      simp only [dotProduct, Vec3q.add, Vec3q.smul, Vec3q.sub]
      ring
    constructor
    · intro hcond
      refine ⟨((max (dotProduct (c.sub o) d / dotProduct d d) 0 : ℚ) : ℝ), ?_, ?_⟩
      · exact_mod_cast le_max_right (dotProduct (c.sub o) d / dotProduct d d) 0
      · rw [hQ]
        have hc2 : (dotProduct
            ((o.add (Vec3q.smul (max (dotProduct (c.sub o) d / dotProduct d d) 0) d)).sub c)
            ((o.add (Vec3q.smul (max (dotProduct (c.sub o) d / dotProduct d d) 0) d)).sub c)
              : ℝ) ≤ (r : ℝ) * r := by exact_mod_cast hcond
        rw [hvQ] at hc2
        push_cast at hc2 ⊢
        linarith
    · rintro ⟨t, ht, hle⟩
      rw [hQ t] at hle
      have key : ((dotProduct d d : ℚ) : ℝ) *
            ((max (dotProduct (c.sub o) d / dotProduct d d) 0 : ℚ) : ℝ) ^ 2 -
          2 * ((dotProduct (c.sub o) d : ℚ) : ℝ) *
            ((max (dotProduct (c.sub o) d / dotProduct d d) 0 : ℚ) : ℝ) +
          ((dotProduct (c.sub o) (c.sub o) : ℚ) : ℝ) ≤
          (dotProduct d d : ℝ) * t ^ 2 - 2 * (dotProduct (c.sub o) d : ℝ) * t +
            (dotProduct (c.sub o) (c.sub o) : ℝ) := by
        have hmax : ((max (dotProduct (c.sub o) d / dotProduct d d) 0 : ℚ) : ℝ) =
            max ((dotProduct (c.sub o) d : ℝ) / (dotProduct d d : ℝ)) 0 := by
          push_cast
          rfl
        rw [hmax]
        rcases le_or_lt 0 ((dotProduct (c.sub o) d : ℝ) / (dotProduct d d : ℝ)) with hts | hts
        · rw [max_eq_left hts]
          have hkey : ∀ u : ℝ,
              (dotProduct d d : ℝ) * u ^ 2 - 2 * (dotProduct (c.sub o) d : ℝ) * u +
                  (dotProduct (c.sub o) (c.sub o) : ℝ) -
                ((dotProduct d d : ℝ) *
                    ((dotProduct (c.sub o) d : ℝ) / (dotProduct d d : ℝ)) ^ 2 -
                  2 * (dotProduct (c.sub o) d : ℝ) *
                    ((dotProduct (c.sub o) d : ℝ) / (dotProduct d d : ℝ)) +
                  (dotProduct (c.sub o) (c.sub o) : ℝ)) =
              (dotProduct d d : ℝ) *
                (u - (dotProduct (c.sub o) d : ℝ) / (dotProduct d d : ℝ)) ^ 2 := by
            intro u
            field_simp
            ring
          have h1 := hkey t
          nlinarith [sq_nonneg (t - (dotProduct (c.sub o) d : ℝ) / (dotProduct d d : ℝ))]
        · rw [max_eq_right hts.le]
          have htcaneg : (dotProduct (c.sub o) d : ℝ) < 0 := by
            have := (div_neg_iff).mp hts
            rcases this with ⟨h1, h2⟩ | ⟨h1, h2⟩
            · exact absurd h2 (not_lt.mpr haR.le)
            · exact h1
          nlinarith [sq_nonneg t]
      have hc2 : ((dotProduct
          ((o.add (Vec3q.smul (max (dotProduct (c.sub o) d / dotProduct d d) 0) d)).sub c)
          ((o.add (Vec3q.smul (max (dotProduct (c.sub o) d / dotProduct d d) 0) d)).sub c)
            : ℚ) : ℝ) ≤ (r : ℝ) * r := by
        rw [hvQ]
        push_cast
        push_cast at key
        linarith
      exact_mod_cast hc2

/-- C6 (amended): `castRay`'s broad-phase test passes iff the ray origin lies
inside the bounding sphere with the UNSCALED radius (the source compares
against `radius * radius`), or the ray meets the sphere whose radius is the
bounding radius times the instance scale.  The claim's version — the same
scaled radius in both tests — is refuted by `broad_phase_counterexample`. -/
theorem broad_phase_characterization (m : Model) (r : Renderable) (o d : Vec3q) :
    passesBroadPhase m r o d = true ↔
      (dotProduct ((getTranslation r.m_model.m_matrix).sub o)
          ((getTranslation r.m_model.m_matrix).sub o) <
        m.m_bounding_radius * m.m_bounding_radius ∨
      ∃ t : ℝ, 0 ≤ t ∧
        (((o.x : ℝ) + t * d.x - (getTranslation r.m_model.m_matrix).x) ^ 2 +
          ((o.y : ℝ) + t * d.y - (getTranslation r.m_model.m_matrix).y) ^ 2 +
          ((o.z : ℝ) + t * d.z - (getTranslation r.m_model.m_matrix).z) ^ 2) ≤
          ((m.m_bounding_radius * r.m_scale : ℚ) : ℝ) * (m.m_bounding_radius * r.m_scale : ℚ)) := by
  simp only [passesBroadPhase, Bool.or_eq_true, decide_eq_true_eq]
  exact or_congr Iff.rfl
    (getRaySphereIntersection_iff (getTranslation r.m_model.m_matrix)
      (m.m_bounding_radius * r.m_scale) o d)

/-- C6 counterexample: for a model of bounding radius 1 on an instance with
scale 1/2 at the origin, a ray from `(9/10, 0, 0)` pointing away along `+x`
passes the source's broad phase (the origin is inside the UNSCALED bounding
sphere: `81/100 < 1`) while the claim's broad phase with the scaled radius
`1/2` in both tests fails (`81/100 ≥ 1/4` and no ray point reaches the scaled
sphere). -/
theorem broad_phase_counterexample :
    passesBroadPhase ⟨"m", 1⟩
        ⟨⟨some ⟨"m", 1⟩, [0, 0, 0, 0, 0, 0, 0, 0, 0, 0, 0, 0, 0, 0, 0, 0]⟩, 0, some 1, 1 / 2⟩
        ⟨9 / 10, 0, 0⟩ ⟨1, 0, 0⟩ = true ∧
    claimBroadPhaseScaled ⟨"m", 1⟩
        ⟨⟨some ⟨"m", 1⟩, [0, 0, 0, 0, 0, 0, 0, 0, 0, 0, 0, 0, 0, 0, 0, 0]⟩, 0, some 1, 1 / 2⟩
        ⟨9 / 10, 0, 0⟩ ⟨1, 0, 0⟩ = false := by
  constructor <;>
    norm_num [passesBroadPhase, claimBroadPhaseScaled, getRaySphereIntersection,
      getTranslation, dotProduct, Vec3q.sub, Vec3q.add, Vec3q.smul, List.getD,
      max_def]

/-- The loop of `castRay` is the best-hit fold over the candidate list. -/
theorem castRayGo_eq_foldCand (narrow : NarrowPhase) (o d : Vec3q) :
    ∀ (rs : List Renderable) (i : ℕ) (hit : RayCastModelHit),
      castRayGo narrow o d rs i hit = foldCand (rayCandidatesGo narrow o d rs i) hit := by
  intro rs
  induction rs with
  | nil => intro i hit; rfl
  | cons r rest ih =>
      intro i hit
      simp only [castRayGo, rayCandidatesGo]
      cases hm : r.m_model.m_model with
      | none => simpa using ih (i + 1) hit
      | some m =>
          by_cases hb : passesBroadPhase m r o d = true
          · simp only [hb, if_true]
            cases hn : narrow m r.m_model.m_matrix r.m_scale o d with
            | none => simpa using ih (i + 1) hit
            | some t =>
                simp only [List.cons_append, List.nil_append, foldCand]
                by_cases hcond : (!hit.m_is_hit || decide (t < hit.m_t)) = true
                · rw [if_pos hcond, if_pos hcond]
                  exact ih (i + 1) _
                · rw [if_neg hcond, if_neg hcond]
                  exact ih (i + 1) hit
          · simp only [Bool.not_eq_true] at hb
            simp only [hb, Bool.false_eq_true, if_false]
            simpa using ih (i + 1) hit

/-- Folding from a recorded best hit yields the first minimum. -/
theorem foldCand_firstMin : ∀ (cs : List RayCand) (c0 : RayCand),
    foldCand cs ⟨true, c0.t, some ⟨c0.entity, CompType.renderable, c0.idx⟩⟩ =
      ⟨true, (firstMinCand c0 cs).t,
        some ⟨(firstMinCand c0 cs).entity, CompType.renderable, (firstMinCand c0 cs).idx⟩⟩ := by
  intro cs
  induction cs with
  | nil => intro c0; rfl
  | cons c rest ih =>
      intro c0
      simp only [foldCand, firstMinCand, Bool.not_true, Bool.false_or]
      by_cases hlt : c.t < c0.t
      · rw [if_pos (by simpa using hlt), if_pos hlt]
        exact ih c
      · rw [if_neg (by simpa using hlt), if_neg hlt]
        exact ih c0

/-- `firstMinCand` either keeps the accumulator (already minimal) or picks
the first strictly smaller candidate that all later ones fail to beat. -/
theorem firstMinCand_spec : ∀ (cs : List RayCand) (c0 : RayCand),
    (firstMinCand c0 cs = c0 ∧ ∀ x ∈ cs, c0.t ≤ x.t) ∨
    (∃ pre w post, cs = pre ++ w :: post ∧ firstMinCand c0 cs = w ∧ w.t < c0.t ∧
      (∀ x ∈ pre, w.t < x.t) ∧ (∀ x ∈ post, w.t ≤ x.t)) := by
  intro cs
  induction cs with
  | nil => intro c0; exact Or.inl ⟨rfl, by simp⟩
  | cons c rest ih =>
      intro c0
      by_cases hlt : c.t < c0.t
      · rcases ih c with ⟨hval, hall⟩ | ⟨pre, w, post, hsplit, hval, hwlt, hpre, hpost⟩
        · refine Or.inr ⟨[], c, rest, by simp, ?_, hlt, by simp, hall⟩
          simp only [firstMinCand, if_pos hlt]
          exact hval
        · refine Or.inr ⟨c :: pre, w, post, by rw [hsplit]; simp, ?_,
            lt_trans hwlt hlt, ?_, hpost⟩
          · simp only [firstMinCand, if_pos hlt]
            exact hval
          · intro x hx
            rcases List.mem_cons.mp hx with rfl | hx2
            · exact hwlt
            · exact hpre x hx2
      · rcases ih c0 with ⟨hval, hall⟩ | ⟨pre, w, post, hsplit, hval, hwlt, hpre, hpost⟩
        · refine Or.inl ⟨?_, ?_⟩
          · simp only [firstMinCand, if_neg hlt]
            exact hval
          · intro x hx
            rcases List.mem_cons.mp hx with rfl | hx2
            · exact not_lt.mp hlt
            · exact hall x hx2
        · refine Or.inr ⟨c :: pre, w, post, by rw [hsplit]; simp, ?_, hwlt, ?_, hpost⟩
          · simp only [firstMinCand, if_neg hlt]
            exact hval
          · intro x hx
            rcases List.mem_cons.mp hx with rfl | hx2
            · exact lt_of_lt_of_le hwlt (not_lt.mp hlt)
            · exact hpre x hx2

/-- C7: among the renderables with a bound model that pass the broad phase
and whose narrow-phase model ray cast hits, `castRay` returns the hit with
the smallest hit parameter `t` — the first such hit in iteration order on a
tie (every earlier candidate is strictly farther, no candidate is closer) —
and its component carries that renderable's entity and registry index; if
there is no such candidate, the returned hit has `m_is_hit = false`. -/
theorem castRay_returns_closest_hit (narrow : NarrowPhase) (s : Scene) (o d : Vec3q) :
    (rayCandidates narrow s o d = [] ∧ castRay narrow s o d = ⟨false, 0, none⟩) ∨
    (∃ pre w post, rayCandidates narrow s o d = pre ++ w :: post ∧
      (∀ x ∈ pre, w.t < x.t) ∧
      (∀ x ∈ rayCandidates narrow s o d, w.t ≤ x.t) ∧
      castRay narrow s o d =
        ⟨true, w.t, some ⟨w.entity, CompType.renderable, w.idx⟩⟩) := by
  rw [castRay, castRayGo_eq_foldCand, rayCandidates]
  cases hcs : rayCandidatesGo narrow o d s.m_renderables 0 with
  | nil => exact Or.inl ⟨rfl, rfl⟩
  | cons c0 cs =>
      right
      have hstep : foldCand (c0 :: cs) ⟨false, 0, none⟩ =
          foldCand cs ⟨true, c0.t, some ⟨c0.entity, CompType.renderable, c0.idx⟩⟩ := by
        simp [foldCand]
      rw [hstep, foldCand_firstMin]
      rcases firstMinCand_spec cs c0 with ⟨hval, hall⟩ | ⟨pre, w, post, hsplit, hval, hwlt, hpre, hpost⟩
      · refine ⟨[], c0, cs, by simp, by simp, ?_, by rw [hval]⟩
        intro x hx
        rcases List.mem_cons.mp hx with rfl | hx2
        · exact le_refl _
        · exact hall x hx2
      · refine ⟨c0 :: pre, w, post, by rw [hsplit]; simp, ?_, ?_, by rw [hval]⟩
        · intro x hx
          rcases List.mem_cons.mp hx with rfl | hx2
          · exact hwlt
          · exact hpre x hx2
        · intro x hx
          rcases List.mem_cons.mp hx with rfl | hx2
          · exact hwlt.le
          · rw [hsplit] at hx2
            rcases List.mem_append.mp hx2 with hx3 | hx3
            · exact (hpre x hx3).le
            · rcases List.mem_cons.mp hx3 with rfl | hx4
              · exact le_refl _
              · exact hpost x hx4

/-! ### Serialization round trip -/

theorem readCamera_serialize (c : Camera) (rest : List Tok) :
    readCamera (serializeCamera c ++ rest) =
      some ({ c with m_aspect := c.m_width / c.m_height }, rest) := rfl

theorem readCameras_serialize (cs : List Camera) (rest : List Tok) :
    readCameras cs.length ((cs.map serializeCamera).flatten ++ rest) =
      some (cs.map (fun c => { c with m_aspect := c.m_width / c.m_height }), rest) := by
  induction cs with
  | nil => rfl
  | cons c cs ih =>
      simp only [List.map_cons, List.flatten_cons, List.length_cons, List.append_assoc,
        readCameras, readCamera_serialize, Option.bind_eq_bind, Option.some_bind, ih]

theorem deserializeCameras_serialize (cs : List Camera) (rest : List Tok) :
    deserializeCameras (serializeCameras cs ++ rest) =
      some (cs.map (fun c => { c with m_aspect := c.m_width / c.m_height }), rest) := by
  simp only [serializeCameras, deserializeCameras, List.cons_append, readI,
    Option.bind_eq_bind, Option.some_bind, Int.toNat_natCast, readCameras_serialize]

theorem readLight_serialize (l : Light) (rest : List Tok) :
    readLight (serializeLight l ++ rest) = some (l, rest) := rfl

theorem readLights_serialize (ls : List Light) (rest : List Tok) :
    readLights ls.length ((ls.map serializeLight).flatten ++ rest) = some (ls, rest) := by
  induction ls with
  | nil => rfl
  | cons l ls ih =>
      simp only [List.map_cons, List.flatten_cons, List.length_cons, List.append_assoc,
        readLights, readLight_serialize, Option.bind_eq_bind, Option.some_bind, ih]

theorem deserializeLights_serialize (ls : List Light) (rest : List Tok) :
    deserializeLights (serializeLights ls ++ rest) = some (ls, rest) := by
  simp only [serializeLights, deserializeLights, List.cons_append, readI,
    Option.bind_eq_bind, Option.some_bind, Int.toNat_natCast, readLights_serialize]

theorem readQs_of_qToks (xs : List ℚ) (rest : List Tok) :
    readQs xs.length (xs.map Tok.qTok ++ rest) = some (xs, rest) := by
  induction xs with
  | nil => rfl
  | cons x xs ih =>
      simp only [List.map_cons, List.length_cons, List.cons_append, readQs, readQ,
        Option.bind_eq_bind, Option.some_bind, ih]

theorem map_getD_range (l : List ℚ) (n : ℕ) (h : l.length = n) :
    (List.range n).map (fun j => l.getD j 0) = l := by
  subst h
  apply List.ext_get
  · simp
  · intro i h1 h2
    simp only [List.get_map, List.get_range]
    rw [List.getD_eq_get]

theorem readRenderableInto_serialize (loadModel : String → Option Model)
    (base r : Renderable) (rest : List Tok) :
    readRenderableInto loadModel base (serializeRenderable r ++ rest) =
      some ({ m_model := ⟨loadModel (renderablePathTok r),
                (List.range 16).map (fun j => r.m_model.m_matrix.getD j 0)⟩,
              m_entity := r.m_entity, m_layer_mask := base.m_layer_mask,
              m_scale := r.m_scale }, rest) := by
  have h16 : ((List.range 16).map (fun j => r.m_model.m_matrix.getD j 0)).length = 16 := by
    simp
  have hq := readQs_of_qToks ((List.range 16).map (fun j => r.m_model.m_matrix.getD j 0)) rest
  rw [h16] at hq
  have hmm : (List.range 16).map (fun j => Tok.qTok (r.m_model.m_matrix.getD j 0)) =
      ((List.range 16).map (fun j => r.m_model.m_matrix.getD j 0)).map Tok.qTok := by
    rw [List.map_map]; rfl
  simp only [serializeRenderable, readRenderableInto, List.cons_append, List.append_assoc,
    List.nil_append, readI, readS, readQ, Option.bind_eq_bind, Option.some_bind]
  rw [hmm, hq]
  rfl

theorem readRenderablesInto_serialize (loadModel : String → Option Model) :
    ∀ (rs bases : List Renderable) (rest : List Tok), bases.length = rs.length →
      readRenderablesInto loadModel bases ((rs.map serializeRenderable).flatten ++ rest) =
        some (List.zipWith (fun base r =>
          ({ m_model := ⟨loadModel (renderablePathTok r),
               (List.range 16).map (fun j => r.m_model.m_matrix.getD j 0)⟩,
             m_entity := r.m_entity, m_layer_mask := base.m_layer_mask,
             m_scale := r.m_scale } : Renderable)) bases rs, rest) := by
  intro rs
  induction rs with
  | nil =>
      intro bases rest h
      rw [List.length_eq_zero.mp h]
      rfl
  | cons r rs ih =>
      intro bases rest h
      cases bases with
      | nil => simp at h
      | cons b bs =>
          simp only [List.length_cons] at h
          simp only [List.map_cons, List.flatten_cons, List.append_assoc,
            readRenderablesInto, readRenderableInto_serialize, Option.bind_eq_bind,
            Option.some_bind, List.zipWith_cons_cons]
          rw [ih bs _ (by omega)]
          rfl

theorem deserializeRenderables_serialize (loadModel : String → Option Model)
    (pre rs : List Renderable) (rest : List Tok) :
    deserializeRenderables loadModel pre (serializeRenderables rs ++ rest) =
      some (List.zipWith (fun base r =>
        ({ m_model := ⟨loadModel (renderablePathTok r),
             (List.range 16).map (fun j => r.m_model.m_matrix.getD j 0)⟩,
           m_entity := r.m_entity, m_layer_mask := base.m_layer_mask,
           m_scale := r.m_scale } : Renderable))
        (pre.take rs.length ++
          List.replicate (rs.length - (pre.take rs.length).length) freshRenderable) rs,
        rest) := by
  have hlen : (pre.take rs.length ++
      List.replicate (rs.length - (pre.take rs.length).length) freshRenderable).length =
      rs.length := by
    simp only [List.length_append, List.length_take, List.length_replicate]
    omega
  simp only [serializeRenderables, deserializeRenderables, List.cons_append, readI,
    Option.bind_eq_bind, Option.some_bind, Int.toNat_natCast]
  rw [readRenderablesInto_serialize loadModel rs _ rest hlen]

theorem zipWith_replicate_left {α β : Type} (f : α → α → β) (a : α) :
    ∀ l : List α, List.zipWith f (List.replicate l.length a) l = l.map (f a)
  | [] => rfl
  | x :: l => by
      simp only [List.length_cons, List.replicate_succ, List.zipWith_cons_cons,
        List.map_cons, zipWith_replicate_left f a l]

theorem modifyTerrainAt_cons (a : Terrain) (rest : List Terrain) (n : ℕ) (f : Terrain → Terrain) :
    modifyTerrainAt (a :: rest) (n + 1) f = a :: modifyTerrainAt rest n f := by
  simp only [modifyTerrainAt, List.get?]
  cases rest.get? n with
  | none => rfl
  | some t => rfl

theorem modifyTerrainAt_concat (l : List Terrain) (T : Terrain) (f : Terrain → Terrain) :
    modifyTerrainAt (l ++ [T]) l.length f = l ++ [f T] := by
  induction l with
  | nil => rfl
  | cons a l ih => simp only [List.cons_append, List.length_cons, modifyTerrainAt_cons, ih]

theorem modifyTerrainAt_length (l : List Terrain) (j : ℕ) (f : Terrain → Terrain) :
    (modifyTerrainAt l j f).length = l.length := by
  simp only [modifyTerrainAt]
  cases h : l.get? j with
  | none => rfl
  | some t => simp [List.length_set]

/-- One iteration of the terrain deserialization loop, evaluated on its
serialized record. -/
theorem deserializeTerrainsLoop_step (acc : List Terrain) (i fuel : ℕ) (t : Terrain)
    (toks : List Tok) :
    deserializeTerrainsLoop acc i (fuel + 1) (serializeTerrain t ++ toks) =
      deserializeTerrainsLoop
        (modifyTerrainAt (modifyTerrainAt (modifyTerrainAt (modifyTerrainAt
          (acc ++ [createdTerrain t.m_entity])
          ((acc ++ [createdTerrain t.m_entity]).length - 1)
          (fun x => { x with m_layer_mask := t.m_layer_mask }))
          ((acc ++ [createdTerrain t.m_entity]).length - 1)
          (fun x => { x with m_material := some (t.m_material.getD "") })) i
          (fun x => { x with m_xz_scale := t.m_xz_scale })) i
          (fun x => { x with m_y_scale := t.m_y_scale }))
        (i + 1) fuel toks := rfl

/-- Deserializing serialized terrain records starting from the accumulated
prefix `done` (with loop counter equal to `done.length`, as in a fresh scene)
reconstructs the records exactly. -/
theorem deserializeTerrainsLoop_serialize :
    ∀ (ts done : List Terrain) (rest : List Tok),
      (∀ t ∈ ts, t.m_material ≠ none) →
      deserializeTerrainsLoop done done.length ts.length
          ((ts.map serializeTerrain).flatten ++ rest) =
        some (done ++ ts, rest) := by
  intro ts
  induction ts with
  | nil =>
      intro done rest _
      simp [deserializeTerrainsLoop]
  | cons t ts ih =>
      intro done rest hmat
      obtain ⟨p, hp⟩ : ∃ p, t.m_material = some p := by
        cases hmt : t.m_material with
        | none => exact absurd hmt (hmat t (List.mem_cons_self t ts))
        | some p => exact ⟨p, rfl⟩
      simp only [List.map_cons, List.flatten_cons, List.length_cons, List.append_assoc]
      rw [deserializeTerrainsLoop_step]
      have hci : (done ++ [createdTerrain t.m_entity]).length - 1 = done.length := by
        simp
      rw [hci]
      simp only [modifyTerrainAt_concat, createdTerrain, hp, Option.getD_some]
      have hT : Terrain.mk t.m_entity t.m_layer_mask (some p) t.m_xz_scale t.m_y_scale = t := by
        obtain ⟨e, lm, mat, xz, y⟩ := t
        rw [show mat = some p from hp]
      rw [hT]
      have hlen2 : done.length + 1 = (done ++ [t]).length := by simp
      rw [hlen2, ih (done ++ [t]) rest (fun x hx => hmat x (List.mem_cons_of_mem t hx))]
      simp

/-- Deserializing serialized terrain records into an arbitrary pre-existing
registry succeeds and APPENDS one terrain per record: nothing pre-existing is
destroyed. -/
theorem deserializeTerrainsLoop_length :
    ∀ (ts acc : List Terrain) (i : ℕ) (rest : List Tok),
      ∃ out, deserializeTerrainsLoop acc i ts.length ((ts.map serializeTerrain).flatten ++ rest) =
        some (out, rest) ∧ out.length = acc.length + ts.length := by
  intro ts
  induction ts with
  | nil =>
      intro acc i rest
      exact ⟨acc, by simp [deserializeTerrainsLoop], by simp⟩
  | cons t ts ih =>
      intro acc i rest
      simp only [List.map_cons, List.flatten_cons, List.length_cons, List.append_assoc]
      rw [deserializeTerrainsLoop_step]
      obtain ⟨out, hout, hlen⟩ := ih
        (modifyTerrainAt (modifyTerrainAt (modifyTerrainAt (modifyTerrainAt
          (acc ++ [createdTerrain t.m_entity])
          ((acc ++ [createdTerrain t.m_entity]).length - 1)
          (fun x => { x with m_layer_mask := t.m_layer_mask }))
          ((acc ++ [createdTerrain t.m_entity]).length - 1)
          (fun x => { x with m_material := some (t.m_material.getD "") })) i
          (fun x => { x with m_xz_scale := t.m_xz_scale })) i
          (fun x => { x with m_y_scale := t.m_y_scale }))
        (i + 1) rest
      refine ⟨out, hout, ?_⟩
      rw [hlen, modifyTerrainAt_length, modifyTerrainAt_length, modifyTerrainAt_length,
        modifyTerrainAt_length, List.length_append]
      simp only [List.length_singleton]
      omega

theorem deserializeTerrains_serialize_fresh (ts : List Terrain) (rest : List Tok)
    (h : ∀ t ∈ ts, t.m_material ≠ none) :
    deserializeTerrains [] (serializeTerrains ts ++ rest) = some (ts, rest) := by
  simp only [serializeTerrains, deserializeTerrains, List.cons_append, readI,
    Option.bind_eq_bind, Option.some_bind, Int.toNat_natCast]
  simpa using deserializeTerrainsLoop_serialize ts [] rest h

theorem deserializeTerrains_length (pre ts : List Terrain) (rest : List Tok) :
    ∃ out, deserializeTerrains pre (serializeTerrains ts ++ rest) = some (out, rest) ∧
      out.length = pre.length + ts.length := by
  simp only [serializeTerrains, deserializeTerrains, List.cons_append, readI,
    Option.bind_eq_bind, Option.some_bind, Int.toNat_natCast]
  exact deserializeTerrainsLoop_length ts pre 0 rest

/-- C3 (amended): serializing a scene and deserializing the stream into a
fresh (empty) scene restores the camera, light and terrain registries
field-for-field and each renderable's entity, model binding, scale and
matrix — but NOT the renderables' layer masks, which are never serialized:
each deserialized renderable carries the indeterminate layer mask of a
default-constructed `Renderable` (`none`).  Hypotheses: cached camera
aspects are consistent (`aspect = width / height`, as everywhere in the
source), instance matrices have their 16 components, the shared resource
manager resolves each serialized model path to the original model, and every
terrain has a material (the source dereferences it unchecked). -/
theorem serialization_roundtrip (loadModel : String → Option Model) (s : Scene)
    (hA : ∀ c ∈ s.m_cameras, c.m_aspect = c.m_width / c.m_height)
    (hM : ∀ r ∈ s.m_renderables, r.m_model.m_matrix.length = 16)
    (hL : ∀ r ∈ s.m_renderables, loadModel (renderablePathTok r) = r.m_model.m_model)
    (hT : ∀ t ∈ s.m_terrains, t.m_material ≠ none) :
    deserialize loadModel (serialize s) emptyScene =
      some ⟨s.m_renderables.map (fun r => { r with m_layer_mask := none }),
            s.m_lights, s.m_cameras, s.m_terrains, []⟩ := by
  have hcam : s.m_cameras.map (fun c => { c with m_aspect := c.m_width / c.m_height }) =
      s.m_cameras := by
    conv_rhs => rw [← List.map_id s.m_cameras]
    apply List.map_congr_left
    intro c hc
    rw [← hA c hc]
    rfl
  have hren : List.zipWith (fun base r =>
      ({ m_model := ⟨loadModel (renderablePathTok r),
           (List.range 16).map (fun j => r.m_model.m_matrix.getD j 0)⟩,
         m_entity := r.m_entity, m_layer_mask := base.m_layer_mask,
         m_scale := r.m_scale } : Renderable))
      (List.replicate s.m_renderables.length freshRenderable) s.m_renderables =
      s.m_renderables.map (fun r => { r with m_layer_mask := none }) := by
    rw [zipWith_replicate_left]
    apply List.map_congr_left
    intro r hr
    rw [hL r hr, map_getD_range _ 16 (hM r hr)]
    rfl
  simp only [serialize, deserialize, List.append_assoc, Option.bind_eq_bind]
  rw [deserializeCameras_serialize]
  simp only [Option.some_bind]
  rw [deserializeRenderables_serialize]
  simp only [Option.some_bind]
  rw [deserializeLights_serialize]
  simp only [Option.some_bind]
  rw [show serializeTerrains s.m_terrains = serializeTerrains s.m_terrains ++ [] from
    (List.append_nil _).symm]
  rw [show emptyScene.m_terrains = ([] : List Terrain) from rfl,
    deserializeTerrains_serialize_fresh _ _ hT]
  simp only [Option.some_bind]
  rw [show emptyScene.m_renderables = ([] : List Renderable) from rfl] at *
  simp only [List.take_nil, List.length_nil, Nat.sub_zero, List.nil_append]
  rw [hren, hcam]
  rfl

/-- Witness for C3 on `roundtripScene`. -/
theorem serialization_roundtrip_witness :
    (∀ c ∈ roundtripScene.m_cameras, c.m_aspect = c.m_width / c.m_height) ∧
    (∀ r ∈ roundtripScene.m_renderables, r.m_model.m_matrix.length = 16) ∧
    (∀ r ∈ roundtripScene.m_renderables,
      roundtripLoad (renderablePathTok r) = r.m_model.m_model) ∧
    (∀ t ∈ roundtripScene.m_terrains, t.m_material ≠ none) ∧
    deserialize roundtripLoad (serialize roundtripScene) emptyScene =
      some ⟨roundtripScene.m_renderables.map (fun r => { r with m_layer_mask := none }),
            roundtripScene.m_lights, roundtripScene.m_cameras,
            roundtripScene.m_terrains, []⟩ := by
  have h1 : ∀ c ∈ roundtripScene.m_cameras, c.m_aspect = c.m_width / c.m_height := by
    norm_num [roundtripScene]
  have h2 : ∀ r ∈ roundtripScene.m_renderables, r.m_model.m_matrix.length = 16 := by
    norm_num [roundtripScene]
  have h3 : ∀ r ∈ roundtripScene.m_renderables,
      roundtripLoad (renderablePathTok r) = r.m_model.m_model := by
    norm_num [roundtripScene, roundtripLoad, renderablePathTok]
  have h4 : ∀ t ∈ roundtripScene.m_terrains, t.m_material ≠ none := by
    simp [roundtripScene]
  exact ⟨h1, h2, h3, h4, serialization_roundtrip roundtripLoad roundtripScene h1 h2 h3 h4⟩

/-- C3 counterexample: the claim as stated — registries equal field-for-field
after a round trip, layer masks included — fails: `roundtripScene`'s one
renderable has layer mask 3, but the deserialized scene's renderable has the
indeterminate layer mask of a default-constructed `Renderable`, because
`serializeRenderables` never writes `m_layer_mask`. -/
theorem serialization_roundtrip_counterexample :
    (deserialize roundtripLoad (serialize roundtripScene) emptyScene).map
        (fun sc => sc.m_renderables.map Renderable.m_layer_mask) =
      some [(none : Option ℤ)] ∧
    roundtripScene.m_renderables.map Renderable.m_layer_mask = [some 3] ∧
    some [(none : Option ℤ)] ≠ some [some 3] := by
  refine ⟨rfl, rfl, by decide⟩

/-- C4 (amended): deserializing a serialized scene into an arbitrary
pre-existing scene resizes the camera, renderable and light registries to
exactly the recorded counts (destroying or default-constructing entries as
needed) — but the terrain registry is NOT resized: `deserializeTerrains`
appends one `createComponent`-created terrain per record, so the result
holds the pre-existing terrains plus the recorded ones. -/
theorem deserialize_registry_counts (loadModel : String → Option Model) (src pre : Scene) :
    ∃ s', deserialize loadModel (serialize src) pre = some s' ∧
      s'.m_cameras.length = src.m_cameras.length ∧
      s'.m_renderables.length = src.m_renderables.length ∧
      s'.m_lights.length = src.m_lights.length ∧
      s'.m_terrains.length = pre.m_terrains.length + src.m_terrains.length := by
  obtain ⟨tout, htout, htlen⟩ :=
    deserializeTerrains_length pre.m_terrains src.m_terrains []
  simp only [serialize, deserialize, List.append_assoc, Option.bind_eq_bind]
  rw [deserializeCameras_serialize]
  simp only [Option.some_bind]
  rw [deserializeRenderables_serialize]
  simp only [Option.some_bind]
  rw [deserializeLights_serialize]
  simp only [Option.some_bind]
  rw [show serializeTerrains src.m_terrains = serializeTerrains src.m_terrains ++ [] from
    (List.append_nil _).symm]
  rw [htout]
  simp only [Option.some_bind]
  refine ⟨_, rfl, ?_, ?_, rfl, htlen⟩
  · simp
  · simp only [List.length_zipWith, List.length_append, List.length_take,
      List.length_replicate]
    omega

/-- C4 counterexample: the stream of an empty scene records 0 terrains, yet
deserializing it into a scene that already holds 1 terrain leaves that
terrain in place — the registry does not hold exactly the recorded count. -/
theorem deserialize_registry_counts_counterexample :
    (deserialize (fun _ => none) (serialize emptyScene) preScene).map
        (fun sc => sc.m_terrains.length) = some 1 ∧ (1 : ℕ) ≠ 0 :=
  ⟨rfl, by decide⟩

end Lumix
